import Mathlib

/-!
Verification of the WaCa storage bot's inventory ledger engine
(`src/bot.py`), embedded shallowly in Lean 4.

The SQLite tables are embedded as Lean lists of row structures; a table
list is kept in insertion order, and since every insert stamps the row
with the current (non-decreasing) wall-clock time, insertion order
coincides with the `ORDER BY added_at ASC` order used by the cursors of
`fbh_take` / `kl_take_herb`.  A row's identity (its SQL rowid) is its
position in the list: `DELETE ... WHERE id=?` removes that element,
`UPDATE ... WHERE id=?` replaces it in place.  Discord plumbing
(interactions, permission checks, message formatting) is outside the
ledger and is not modelled; validated parameters (positive quantities,
resolved storage ids) are the function arguments, mirroring the checks
the command handlers perform before calling the `LagerDB` layer.
Human-readable failure strings built by `kl_herstellen` are modelled
structurally (`CraftFail`), keeping the numeric content of the message.
-/

/-- Python `s.strip()`: drop leading and trailing whitespace
(char-list implementation so that concrete strings evaluate in the
kernel). -/
def py_strip (s : String) : String :=
  ⟨((s.data.dropWhile Char.isWhitespace).reverse.dropWhile
      Char.isWhitespace).reverse⟩

/-- Splitter underlying Python `s.split()`: cut at every whitespace
character; empty segments (adjacent separators) are filtered away by
the caller, as Python `split()` does. -/
def split_ws_aux (cur : List Char) : List Char → List (List Char)
  | [] => [cur.reverse]
  | c :: rest =>
    if c.isWhitespace then cur.reverse :: split_ws_aux [] rest
    else split_ws_aux (c :: cur) rest

/-- `norm_key` from `bot.py`: `" ".join(s.strip().split()).lower()` —
ends stripped, whitespace runs collapsed to single spaces, then
lower-cased (Python lower-cases per character, modelled by
`Char.toLower`). -/
def norm_key (s : String) : String :=
  ⟨(List.intercalate [' ']
      ((split_ws_aux [] (py_strip s).data).filter
        (fun w => !w.isEmpty))).map Char.toLower⟩

/-- Lookup in the dict `{norm_key(x): x for x in allowed}` built from the
config list; a Python dict comprehension keeps the last entry for a
repeated key, hence the reversed search. -/
def allowedLookup (allowed : List String) (k : String) : Option String :=
  allowed.reverse.find? (fun x => norm_key x == k)

/-- `is_allowed(name, allowed_map)` from `bot.py`. -/
def is_allowed (name : String) (allowed : List String) : Bool :=
  (allowedLookup allowed (norm_key name)).isSome

/-- `canonical(name, allowed_map)` from `bot.py`. -/
def canonical (name : String) (allowed : List String) : String :=
  (allowedLookup allowed (norm_key name)).getD (py_strip name)

/-- Row of the `fbh_batches` table. -/
structure Batch where
  storage_id : Nat
  item_key : String
  item_display : String
  qty : Int
  added_at : Int
  added_by : Nat
deriving DecidableEq

/-- State column of `kl_herb_lots`: the code only ever writes
`'frisch'` or `'getrocknet'`. -/
inductive LotState where
  | frisch
  | getrocknet
deriving DecidableEq

/-- Row of the `kl_herb_lots` table. -/
structure LotRow where
  storage_id : Nat
  herb_key : String
  herb_display : String
  qty : Int
  state : LotState
  added_at : Int
  added_by : Nat
deriving DecidableEq

/-- Row of the `kl_pantry` table (primary key `(storage_id, item_key)`). -/
structure PantryRow where
  storage_id : Nat
  item_key : String
  item_display : String
  qty : Int
  updated_at : Int
  updated_by : Nat
deriving DecidableEq

/-- The three ledger tables of one database. -/
structure DB where
  fbh : List Batch
  lots : List LotRow
  pantry : List PantryRow
deriving DecidableEq

/-- Row of `guild_settings` for one guild. -/
structure Settings where
  saison : String
  fbh_saison_verderb : Bool
  kl_trocknen : Bool
deriving DecidableEq

/-- `DEFAULT_FBH_SMELL_DAYS` from `bot.py`. -/
def DEFAULT_FBH_SMELL_DAYS : Int := 7

/-- `DEFAULT_FBH_RUIN_DAYS` from `bot.py`. -/
def DEFAULT_FBH_RUIN_DAYS : Int := 14

/-- The `SAISON_TIMES` table from `bot.py`; `none` models a key that is
absent from the dict. -/
def SAISON_TIMES (saison : String) : Option (Int × Int) :=
  if saison = "Blattfrische" then some (4, 7)
  else if saison = "Blattfall" then some (4, 7)
  else if saison = "Blattleere" then some (7, 10)
  else if saison = "Blattgrüne" then some (2, 5)
  else none

/-- The three return values of `fbh_status_for_age_days`
(`"frisch"`, `"müffelt"`, `"verdorben"`). -/
inductive FbhStatus where
  | frisch
  | mueffelt
  | verdorben
deriving DecidableEq

/-- `fbh_status_for_age_days(age_days, saison, saison_enabled)` from
`bot.py`. -/
def fbh_status_for_age_days (age_days : Int) (saison : String)
    (saison_enabled : Bool) : FbhStatus :=
  let p :=
    if saison_enabled then
      (SAISON_TIMES saison).getD (DEFAULT_FBH_SMELL_DAYS, DEFAULT_FBH_RUIN_DAYS)
    else
      (DEFAULT_FBH_SMELL_DAYS, DEFAULT_FBH_RUIN_DAYS)
  if age_days ≥ p.2 then .verdorben
  else if age_days ≥ p.1 then .mueffelt
  else .frisch

/-- Row selector of the `fbh_take` cursor:
`WHERE storage_id=? AND item_key=?`. -/
def fbh_match (sid : Nat) (k : String) (b : Batch) : Bool :=
  b.storage_id == sid && b.item_key == k

/-- `fbh_add(storage_id, item_display, qty, user_id)` from `bot.py`:
inserts one new batch row stamped with the current time. -/
def fbh_add (sid : Nat) (item_display : String) (qty : Int) (now : Int)
    (user : Nat) (db : DB) : DB :=
  { db with fbh := db.fbh ++
      [{ storage_id := sid, item_key := norm_key item_display,
         item_display := py_strip item_display, qty := qty,
         added_at := now, added_by := user }] }

/-- The loop body of `fbh_take`: walk the batches in `added_at` order;
a row of the selected key with demand left contributes
`min(batch_qty, to_remove)`, is deleted when drained to `≤ 0` and
updated in place otherwise; every other row (wrong key/storage, or
demand already exhausted — the `break`) is untouched. -/
def fbh_take_go (sid : Nat) (k : String) : Int → List Batch → Int × List Batch
  | _, [] => (0, [])
  | toRemove, b :: rest =>
    if fbh_match sid k b ∧ 0 < toRemove then
      let t := min b.qty toRemove
      let r := fbh_take_go sid k (toRemove - t) rest
      (t + r.1, if b.qty - t ≤ 0 then r.2 else { b with qty := b.qty - t } :: r.2)
    else
      let r := fbh_take_go sid k toRemove rest
      (r.1, b :: r.2)

/-- `fbh_take(storage_id, item_display, qty)` from `bot.py`; returns the
amount actually removed together with the updated database. -/
def fbh_take (sid : Nat) (item_display : String) (qty : Int) (db : DB) :
    Int × DB :=
  let r := fbh_take_go sid (norm_key item_display) qty db.fbh
  (r.1, { db with fbh := r.2 })

/-- The batches of one storage (`fbh_batches_for_status`, ordered by
`added_at`, i.e. list order). -/
def fbh_rows (db : DB) (sid : Nat) : List Batch :=
  db.fbh.filter (fun b => b.storage_id == sid)

/-- `SUM(qty)` of one `GROUP BY item_key` group of `fbh_total`. -/
def fbh_sum_key (db : DB) (sid : Nat) (k : String) : Int :=
  (((fbh_rows db sid).filter (fun b => b.item_key == k)).map (·.qty)).sum

/-- The groups of `fbh_total`'s `GROUP BY item_key` (keys in first-seen
order; the `ORDER BY item_display` of the query is presentational and
not modelled). -/
def fbh_keys (db : DB) (sid : Nat) : List String :=
  ((fbh_rows db sid).map (·.item_key)).dedup

/-- `fbh_total(storage_id)` from `bot.py`: per-key sums, groups with a
non-positive sum filtered out; each group is identified here by its
item key (the query reports a display name of the group). -/
def fbh_total (db : DB) (sid : Nat) : List (String × Int) :=
  ((fbh_keys db sid).map (fun k => (k, fbh_sum_key db sid k))).filter
    (fun e => decide (0 < e.2))

/-- `kl_mark_dried_older_than(storage_id, cutoff_ts)` from `bot.py`:
`UPDATE kl_herb_lots SET state='getrocknet' WHERE storage_id=? AND
state='frisch' AND added_at <= ?`. -/
def kl_mark_dried_older_than (sid : Nat) (cutoff : Int) (db : DB) : DB :=
  { db with lots := db.lots.map (fun l =>
      if l.storage_id = sid ∧ l.state = LotState.frisch ∧ l.added_at ≤ cutoff
      then { l with state := LotState.getrocknet } else l) }

/-- `kl_apply_drying_if_enabled(guild_id, storage_id)` from `bot.py`:
no-op unless the `kl_trocknen` toggle is on, else dries lots older
than `now - 7*24*60*60`. -/
def kl_apply_drying_if_enabled (settings : Settings) (sid : Nat) (now : Int)
    (db : DB) : DB :=
  if settings.kl_trocknen then
    kl_mark_dried_older_than sid (now - 7 * 24 * 60 * 60) db
  else db

/-- `kl_add_herb(storage_id, herb_display, qty, user_id)` from `bot.py`:
inserts one new lot, always in the `frisch` state. -/
def kl_add_herb (sid : Nat) (herb_display : String) (qty : Int) (now : Int)
    (user : Nat) (db : DB) : DB :=
  { db with lots := db.lots ++
      [{ storage_id := sid, herb_key := norm_key herb_display,
         herb_display := py_strip herb_display, qty := qty,
         state := LotState.frisch, added_at := now, added_by := user }] }

/-- Row selector `WHERE storage_id=? AND herb_key=?` on lots. -/
def kl_match (sid : Nat) (k : String) (l : LotRow) : Bool :=
  l.storage_id == sid && l.herb_key == k

/-- Row selector of one pass of the `kl_take_herb` cursor:
`WHERE storage_id=? AND herb_key=? AND state=?`. -/
def kl_match_state (sid : Nat) (k : String) (st : LotState) (l : LotRow) : Bool :=
  kl_match sid k l && l.state == st

/-- One pass of the `kl_take_herb` loop over the lots of one state,
oldest first (same consumption scheme as `fbh_take_go`). -/
def kl_take_go (sid : Nat) (k : String) (st : LotState) :
    Int → List LotRow → Int × List LotRow
  | _, [] => (0, [])
  | toRemove, l :: rest =>
    if kl_match_state sid k st l ∧ 0 < toRemove then
      let t := min l.qty toRemove
      let r := kl_take_go sid k st (toRemove - t) rest
      (t + r.1, if l.qty - t ≤ 0 then r.2 else { l with qty := l.qty - t } :: r.2)
    else
      let r := kl_take_go sid k st toRemove rest
      (r.1, l :: r.2)

/-- `kl_take_herb(storage_id, herb_display, qty)` from `bot.py`: the
`for state in ["frisch", "getrocknet"]` loop — fresh lots first, then
dried lots with whatever demand is left. -/
def kl_take_herb (sid : Nat) (herb_display : String) (qty : Int) (db : DB) :
    Int × DB :=
  let k := norm_key herb_display
  let r1 := kl_take_go sid k LotState.frisch qty db.lots
  let r2 := kl_take_go sid k LotState.getrocknet (qty - r1.1) r1.2
  (r1.1 + r2.1, { db with lots := r2.2 })

/-- `kl_total_available(storage_id, herb_key)` from `bot.py`:
`SELECT SUM(qty) ... WHERE storage_id=? AND herb_key=?`, both states. -/
def kl_total_available (db : DB) (sid : Nat) (k : String) : Int :=
  ((db.lots.filter (kl_match sid k)).map (·.qty)).sum

/-- Pantry row selector `WHERE storage_id=? AND item_key=?`. -/
def pantry_match (sid : Nat) (k : String) (p : PantryRow) : Bool :=
  p.storage_id == sid && p.item_key == k

/-- Sum of the pantry rows of one key (the unique row's quantity under
the primary-key invariant, 0 when absent). -/
def pantry_sum (db : DB) (sid : Nat) (k : String) : Int :=
  ((db.pantry.filter (pantry_match sid k)).map (·.qty)).sum

/-- `pantry_add(storage_id, item_display, qty, user_id)` from `bot.py`:
additive upsert on the `(storage_id, item_key)` primary key. -/
def pantry_add (sid : Nat) (item_display : String) (qty : Int) (now : Int)
    (user : Nat) (db : DB) : DB :=
  let k := norm_key item_display
  match db.pantry.find? (pantry_match sid k) with
  | some r =>
      { db with pantry := db.pantry.map (fun p =>
          if pantry_match sid k p then
            { p with qty := r.qty + qty, updated_at := now, updated_by := user }
          else p) }
  | none =>
      { db with pantry := db.pantry ++
          [{ storage_id := sid, item_key := k, item_display := py_strip item_display,
             qty := qty, updated_at := now, updated_by := user }] }

/-- `pantry_take(storage_id, item_display, qty)` from `bot.py`: subtract
up to the available quantity, delete the row at `≤ 0`. -/
def pantry_take (sid : Nat) (item_display : String) (qty : Int) (db : DB) :
    Int × DB :=
  let k := norm_key item_display
  match db.pantry.find? (pantry_match sid k) with
  | none => (0, db)
  | some r =>
      let t := min r.qty qty
      let newQty := r.qty - t
      if newQty ≤ 0 then
        (t, { db with pantry := db.pantry.filter (fun p => !pantry_match sid k p) })
      else
        (t, { db with pantry := db.pantry.map (fun p =>
            if pantry_match sid k p then { p with qty := newQty } else p) })

/-- One entry of the `missing` list built by `kl_herstellen`; the code
builds strings, modelled structurally with the numbers the message
interpolates: `notAllowed name` for
`f"{herb_name} (nicht erlaubt in allowed_kl_herbs)"`, and
`short name (need-have) need have` for
`f"{herb_name}: fehlt {need-have} (braucht {need}, hat {have})"`. -/
inductive CraftFail where
  | notAllowed (name : String)
  | short (name : String) (missingAmt need avail : Int)
deriving DecidableEq

/-- Outcome of `kl_herstellen`: success, the itemized

"Nicht genug Zutaten" refusal, or the post-validation
"Unerwarteter Fehler beim Abziehen der Zutaten" abort. -/
inductive CraftOutcome where
  | ok
  | fail (missing : List CraftFail)
  | fatal
deriving DecidableEq

/-- The availability-check loop of `kl_herstellen`: a disallowed
ingredient is recorded and skipped (`continue`); otherwise
`need = base_qty * menge` is compared with `kl_total_available`. -/
def craft_missing (allowed : List String) (recipe : List (String × Int))
    (menge : Int) (sid : Nat) (db : DB) : List CraftFail :=
  recipe.filterMap (fun e =>
    if is_allowed e.1 allowed then
      let need := e.2 * menge
      let avail := kl_total_available db sid (norm_key e.1)
      if avail < need then some (.short e.1 (need - avail) need avail) else none
    else some (.notAllowed e.1))

/-- The consumption loop of `kl_herstellen`: each ingredient is taken
via `kl_take_herb` under its canonical display name; a take that does
not return exactly `need` aborts immediately (`removed != need`),
leaving the partial consumption in place. -/
def craft_consume (allowed : List String) (menge : Int) (sid : Nat) :
    List (String × Int) → DB → Bool × DB
  | [], db => (true, db)
  | e :: rest, db =>
    let need := e.2 * menge
    let r := kl_take_herb sid (canonical e.1 allowed) need db
    if r.1 = need then craft_consume allowed menge sid rest r.2
    else (false, r.2)

/-- `kl_herstellen(lager, rezept, menge)` from `bot.py`, after storage
resolution and the `menge > 0` / recipe-exists checks: apply drying,
validate every ingredient, abort with the itemized list on any failure,
otherwise consume all ingredients and produce `menge` units of the
recipe into the pantry. -/
def kl_herstellen (allowed : List String) (recipe : List (String × Int))
    (rezept : String) (menge : Int) (sid : Nat) (settings : Settings)
    (now : Int) (user : Nat) (db : DB) : CraftOutcome × DB :=
  let db1 := kl_apply_drying_if_enabled settings sid now db
  let missing := craft_missing allowed recipe menge sid db1
  if missing.isEmpty then
    let r := craft_consume allowed menge sid recipe db1
    if r.1 then (.ok, pantry_add sid rezept menge now user r.2)
    else (.fatal, r.2)
  else (.fail missing, db1)

/-- Age in whole days of a batch, as computed in `inventar_anzeigen`:
`(now_ts() - added_at) // (24*60*60)` (Python floor division). -/
def batch_age_days (now : Int) (b : Batch) : Int :=
  (now - b.added_at).fdiv (24 * 60 * 60)

/-- Status of one batch as classified inside `inventar_anzeigen`. -/
def batch_status (now : Int) (saison : String) (enabled : Bool) (b : Batch) :
    FbhStatus :=
  fbh_status_for_age_days (batch_age_days now b) saison enabled

/-- The `ruined_any` / `smelly_any` flag loop of `inventar_anzeigen`
(note the `elif`: a ruined batch does not set the smelly flag). -/
def fbh_pile_flags (now : Int) (saison : String) (enabled : Bool)
    (batches : List Batch) : Bool × Bool :=
  batches.foldl (fun acc b =>
    match batch_status now saison enabled b with
    | .verdorben => (true, acc.2)
    | .mueffelt => (acc.1, true)
    | .frisch => acc) (false, false)

/-- The overall pile status `inventar_anzeigen` reports for an FBH
storage: `VERDORBEN` if any batch is ruined, else `MÜFFELT` if any is
smelly, else `FRISCH`.  A pure read: the FBH branch of
`inventar_anzeigen` issues only SELECTs. -/
def fbh_pile_status (now : Int) (saison : String) (enabled : Bool)
    (batches : List Batch) : FbhStatus :=
  let f := fbh_pile_flags now saison enabled batches
  if f.1 then .verdorben else if f.2 then .mueffelt else .frisch

/-- The ledger mutations of claim C7, with the arguments the command
layer passes after its own validation. -/
inductive Op where
  | fbhAdd (sid : Nat) (disp : String) (qty now : Int) (user : Nat)
  | fbhTake (sid : Nat) (disp : String) (qty : Int)
  | klAdd (sid : Nat) (disp : String) (qty now : Int) (user : Nat)
  | klTake (sid : Nat) (disp : String) (qty : Int)
  | produce (sid : Nat) (disp : String) (qty now : Int) (user : Nat)
  | consume (sid : Nat) (disp : String) (qty : Int)
deriving DecidableEq

/-- The command layer rejects `menge <= 0` before every add, and
`kl_herstellen` calls `pantry_add` with a positive `menge`. -/
def Op.valid : Op → Prop
  | .fbhAdd _ _ q _ _ => 0 < q
  | .klAdd _ _ q _ _ => 0 < q
  | .produce _ _ q _ _ => 0 < q
  | _ => True

/-- Effect of one operation on the database (returned amounts dropped). -/
def Op.apply : Op → DB → DB
  | .fbhAdd sid d q now u, db => fbh_add sid d q now u db
  | .fbhTake sid d q, db => (fbh_take sid d q db).2
  | .klAdd sid d q now u, db => kl_add_herb sid d q now u db
  | .klTake sid d q, db => (kl_take_herb sid d q db).2
  | .produce sid d q now u, db => pantry_add sid d q now u db
  | .consume sid d q, db => (pantry_take sid d q db).2

/-- Run a sequence of operations. -/
def runOps (ops : List Op) (db : DB) : DB :=
  ops.foldl (fun db o => o.apply db) db

/-- Data-model well-formedness (spec §3): every stored quantity is
positive, and the pantry respects its `(storage_id, item_key)` primary
key. -/
def WFdb (db : DB) : Prop :=
  (∀ b ∈ db.fbh, 0 < b.qty) ∧ (∀ l ∈ db.lots, 0 < l.qty) ∧
  (∀ p ∈ db.pantry, 0 < p.qty) ∧
  (db.pantry.map (fun p => (p.storage_id, p.item_key))).Nodup

instance (db : DB) : Decidable (WFdb db) := by
  unfold WFdb; infer_instance

/-- Modelled from the spec (§4.3 `take`): sequential oldest-first
consumption of a list of batches of one key — each batch contributes
`min(remaining request, batch quantity)`, a fully drained batch is
deleted, a partially drained one has its quantity reduced in place,
and consumption stops when the request is exhausted. -/
def fifoConsumeBatches : Int → List Batch → Int × List Batch
  | _, [] => (0, [])
  | q, b :: rest =>
    if 0 < q then
      let t := min b.qty q
      let r := fifoConsumeBatches (q - t) rest
      (t + r.1, if b.qty - t ≤ 0 then r.2 else { b with qty := b.qty - t } :: r.2)
    else (0, b :: rest)

/-- Modelled from the spec (§4.4 `take`): the same oldest-first
consumption scheme on a list of lots of one key and state. -/
def fifoConsumeLots : Int → List LotRow → Int × List LotRow
  | _, [] => (0, [])
  | q, l :: rest =>
    if 0 < q then
      let t := min l.qty q
      let r := fifoConsumeLots (q - t) rest
      (t + r.1, if l.qty - t ≤ 0 then r.2 else { l with qty := l.qty - t } :: r.2)
    else (0, l :: rest)

/-- Modelled from the spec (§4.3 spoilage classification): threshold
pair selection — the fixed default pair when seasonal mode is off, the
season table with default fallback when it is on. -/
def spec_thresholds (saison : String) (enabled : Bool) : Int × Int :=
  if enabled then (SAISON_TIMES saison).getD (7, 14) else (7, 14)

/-- Modelled from the spec (§4.3 spoilage classification):
`age ≥ ruin ⇒ Ruined; else age ≥ smell ⇒ Smelly; else Fresh`. -/
def spec_classify (smell ruin age : Int) : FbhStatus :=
  if age ≥ ruin then .verdorben else if age ≥ smell then .mueffelt else .frisch

theorem filter_filter_of_imp {α} {p q : α → Bool} (h : ∀ a, p a = true → q a = true)
    (l : List α) : (l.filter q).filter p = l.filter p := by
  induction l with
  | nil => rfl
  | cons a t ih =>
    by_cases hq : q a = true
    · by_cases hp : p a = true
      · simp [List.filter_cons, hq, hp, ih]
      · simp [List.filter_cons, hq, hp, ih]
    · have hp : ¬ p a = true := fun hpa => hq (h a hpa)
      simp [List.filter_cons, hq, hp, ih]

theorem filter_eq_of_imp {α} {p q : α → Bool} (h : ∀ a, p a = true → q a = true)
    {l1 l2 : List α} (hq : l1.filter q = l2.filter q) :
    l1.filter p = l2.filter p := by
  rw [← filter_filter_of_imp h l1, ← filter_filter_of_imp h l2, hq]

theorem fbh_take_go_nonpos (sid : Nat) (k : String) (q : Int) (l : List Batch)
    (hq : q ≤ 0) : fbh_take_go sid k q l = (0, l) := by
  induction l with
  | nil => rfl
  | cons b rest ih =>
    have : ¬ (fbh_match sid k b = true ∧ 0 < q) := by
      rintro ⟨-, h⟩; omega
    simp [fbh_take_go, this, ih]

theorem fifoConsumeBatches_nonpos (q : Int) (l : List Batch) (hq : q ≤ 0) :
    fifoConsumeBatches q l = (0, l) := by
  cases l with
  | nil => rfl
  | cons b rest => simp [fifoConsumeBatches, show ¬ (0 < q) by omega]

theorem fbh_take_go_cons_hit {sid : Nat} {k : String} {b : Batch}
    {rest : List Batch} {q : Int} (hm : fbh_match sid k b = true) (hq : 0 < q) :
    fbh_take_go sid k q (b :: rest) =
      (min b.qty q + (fbh_take_go sid k (q - min b.qty q) rest).1,
       if b.qty - min b.qty q ≤ 0 then (fbh_take_go sid k (q - min b.qty q) rest).2
       else { b with qty := b.qty - min b.qty q } ::
         (fbh_take_go sid k (q - min b.qty q) rest).2) := by
  simp [fbh_take_go, hm, hq]

theorem fbh_take_go_cons_skip {sid : Nat} {k : String} {b : Batch}
    {rest : List Batch} {q : Int} (hc : ¬ (fbh_match sid k b = true ∧ 0 < q)) :
    fbh_take_go sid k q (b :: rest) =
      ((fbh_take_go sid k q rest).1, b :: (fbh_take_go sid k q rest).2) := by
  simp only [fbh_take_go, if_neg hc]

theorem fifoConsumeBatches_cons_pos {b : Batch} {rest : List Batch} {q : Int}
    (hq : 0 < q) :
    fifoConsumeBatches q (b :: rest) =
      (min b.qty q + (fifoConsumeBatches (q - min b.qty q) rest).1,
       if b.qty - min b.qty q ≤ 0 then (fifoConsumeBatches (q - min b.qty q) rest).2
       else { b with qty := b.qty - min b.qty q } ::
         (fifoConsumeBatches (q - min b.qty q) rest).2) := by
  simp [fifoConsumeBatches, hq]

theorem fbh_take_go_spec (sid : Nat) (k : String) (q : Int) (l : List Batch) :
    (fbh_take_go sid k q l).1 =
      (fifoConsumeBatches q (l.filter (fbh_match sid k))).1 ∧
    (fbh_take_go sid k q l).2.filter (fbh_match sid k) =
      (fifoConsumeBatches q (l.filter (fbh_match sid k))).2 ∧
    (fbh_take_go sid k q l).2.filter (fun b => !fbh_match sid k b) =
      l.filter (fun b => !fbh_match sid k b) := by
  induction l generalizing q with
  | nil => simp [fbh_take_go, fifoConsumeBatches]
  | cons b rest ih =>
    by_cases hm : fbh_match sid k b = true
    · by_cases hq : 0 < q
      · obtain ⟨ih1, ih2, ih3⟩ := ih (q - min b.qty q)
        rw [fbh_take_go_cons_hit hm hq, List.filter_cons_of_pos hm,
          fifoConsumeBatches_cons_pos hq]
        refine ⟨by rw [ih1], ?_, ?_⟩
        · by_cases hdel : b.qty - min b.qty q ≤ 0
          · rw [if_pos hdel, if_pos hdel, ih2]
          · rw [if_neg hdel, if_neg hdel,
              List.filter_cons_of_pos (show fbh_match sid k
                { b with qty := b.qty - min b.qty q } = true from hm), ih2]
        · by_cases hdel : b.qty - min b.qty q ≤ 0
          · rw [if_pos hdel, ih3,
              List.filter_cons_of_neg (by simp [hm])]
          · have hb2 : fbh_match sid k { b with qty := b.qty - min b.qty q } = true := hm
            rw [if_neg hdel,
              List.filter_cons_of_neg (p := fun x => !fbh_match sid k x) (by simp [hb2]),
              ih3,
              List.filter_cons_of_neg (p := fun x => !fbh_match sid k x) (by simp [hm])]
      · have hrest := fbh_take_go_nonpos sid k q rest (by omega)
        rw [fbh_take_go_cons_skip (fun h => hq h.2), hrest,
          List.filter_cons_of_pos hm,
          fifoConsumeBatches_nonpos q _ (by omega)]
        exact ⟨rfl, rfl, rfl⟩
    · obtain ⟨ih1, ih2, ih3⟩ := ih q
      rw [fbh_take_go_cons_skip (fun h => hm h.1),
        List.filter_cons_of_neg hm, List.filter_cons_of_neg hm,
        List.filter_cons_of_pos (by simp [hm]),
        List.filter_cons_of_pos (by simp [hm]), ih3]
      exact ⟨ih1, ih2, rfl⟩

theorem batch_sum_nonneg {l : List Batch} (h : ∀ b ∈ l, 0 < b.qty) :
    0 ≤ (l.map (·.qty)).sum := by
  induction l with
  | nil => simp
  | cons b rest ih =>
    have hb := h b (by simp)
    have := ih (fun x hx => h x (by simp [hx]))
    simp only [List.map_cons, List.sum_cons]
    omega

theorem fifoConsumeBatches_fst_min {q : Int} {l : List Batch} (hq : 0 ≤ q)
    (h : ∀ b ∈ l, 0 < b.qty) :
    (fifoConsumeBatches q l).1 = min q ((l.map (·.qty)).sum) := by
  induction l generalizing q with
  | nil => simp [fifoConsumeBatches]; omega
  | cons b rest ih =>
    have hb := h b (by simp)
    have hrest : ∀ x ∈ rest, 0 < x.qty := fun x hx => h x (by simp [hx])
    have hsr := batch_sum_nonneg hrest
    by_cases hpos : 0 < q
    · rw [fifoConsumeBatches_cons_pos hpos,
        ih (by omega) hrest]
      simp only [List.map_cons, List.sum_cons]
      omega
    · rw [fifoConsumeBatches_nonpos q _ (by omega)]
      simp only [List.map_cons, List.sum_cons]
      omega

theorem fifoConsumeBatches_sum (q : Int) (l : List Batch) :
    ((fifoConsumeBatches q l).2.map (·.qty)).sum =
      (l.map (·.qty)).sum - (fifoConsumeBatches q l).1 := by
  induction l generalizing q with
  | nil => simp [fifoConsumeBatches]
  | cons b rest ih =>
    by_cases hpos : 0 < q
    · rw [fifoConsumeBatches_cons_pos hpos]
      by_cases hdel : b.qty - min b.qty q ≤ 0
      · have hmin : min b.qty q ≤ b.qty := min_le_left _ _
        rw [if_pos hdel]
        have := ih (q - min b.qty q)
        simp only [List.map_cons, List.sum_cons]
        omega
      · rw [if_neg hdel]
        have := ih (q - min b.qty q)
        simp only [List.map_cons, List.sum_cons]
        omega
    · rw [fifoConsumeBatches_nonpos q _ (by omega)]
      simp

theorem fifoConsumeBatches_pos {q : Int} {l : List Batch}
    (h : ∀ b ∈ l, 0 < b.qty) :
    ∀ b ∈ (fifoConsumeBatches q l).2, 0 < b.qty := by
  induction l generalizing q with
  | nil => simp [fifoConsumeBatches]
  | cons b rest ih =>
    have hb := h b (by simp)
    have hrest : ∀ x ∈ rest, 0 < x.qty := fun x hx => h x (by simp [hx])
    by_cases hpos : 0 < q
    · rw [fifoConsumeBatches_cons_pos hpos]
      by_cases hdel : b.qty - min b.qty q ≤ 0
      · rw [if_pos hdel]
        exact ih hrest
      · rw [if_neg hdel]
        intro x hx
        rcases List.mem_cons.mp hx with hx | hx
        · subst hx; simp; omega
        · exact ih hrest x hx
    · rw [fifoConsumeBatches_nonpos q _ (by omega)]
      exact h

theorem fifoConsumeBatches_drained {q : Int} {l : List Batch}
    (h : ∀ b ∈ l, 0 < b.qty) (hall : (l.map (·.qty)).sum ≤ q) :
    (fifoConsumeBatches q l).2 = [] := by
  induction l generalizing q with
  | nil => simp [fifoConsumeBatches]
  | cons b rest ih =>
    have hb := h b (by simp)
    have hrest : ∀ x ∈ rest, 0 < x.qty := fun x hx => h x (by simp [hx])
    have hsr := batch_sum_nonneg hrest
    simp only [List.map_cons, List.sum_cons] at hall
    have hpos : 0 < q := by omega
    rw [fifoConsumeBatches_cons_pos hpos]
    have hminb : min b.qty q = b.qty := min_eq_left (by omega)
    rw [if_pos (by omega)]
    exact ih hrest (by omega)

theorem fbh_take_go_pos {sid : Nat} {k : String} {q : Int} {l : List Batch}
    (h : ∀ b ∈ l, 0 < b.qty) :
    ∀ b ∈ (fbh_take_go sid k q l).2, 0 < b.qty := by
  induction l generalizing q with
  | nil => simp [fbh_take_go]
  | cons b rest ih =>
    have hb := h b (by simp)
    have hrest : ∀ x ∈ rest, 0 < x.qty := fun x hx => h x (by simp [hx])
    by_cases hc : fbh_match sid k b = true ∧ 0 < q
    · rw [fbh_take_go_cons_hit hc.1 hc.2]
      by_cases hdel : b.qty - min b.qty q ≤ 0
      · rw [if_pos hdel]
        exact ih hrest
      · rw [if_neg hdel]
        intro x hx
        rcases List.mem_cons.mp hx with hx | hx
        · subst hx; simp; omega
        · exact ih hrest x hx
    · rw [fbh_take_go_cons_skip hc]
      intro x hx
      rcases List.mem_cons.mp hx with hx | hx
      · subst hx; exact hb
      · exact ih hrest x hx

theorem kl_take_go_nonpos (sid : Nat) (k : String) (st : LotState) (q : Int)
    (l : List LotRow) (hq : q ≤ 0) : kl_take_go sid k st q l = (0, l) := by
  induction l with
  | nil => rfl
  | cons b rest ih =>
    have : ¬ (kl_match_state sid k st b = true ∧ 0 < q) := by
      rintro ⟨-, h⟩; omega
    simp [kl_take_go, this, ih]

theorem fifoConsumeLots_nonpos (q : Int) (l : List LotRow) (hq : q ≤ 0) :
    fifoConsumeLots q l = (0, l) := by
  cases l with
  | nil => rfl
  | cons b rest => simp [fifoConsumeLots, show ¬ (0 < q) by omega]

theorem kl_take_go_cons_hit {sid : Nat} {k : String} {st : LotState} {b : LotRow}
    {rest : List LotRow} {q : Int} (hm : kl_match_state sid k st b = true)
    (hq : 0 < q) :
    kl_take_go sid k st q (b :: rest) =
      (min b.qty q + (kl_take_go sid k st (q - min b.qty q) rest).1,
       if b.qty - min b.qty q ≤ 0 then (kl_take_go sid k st (q - min b.qty q) rest).2
       else { b with qty := b.qty - min b.qty q } ::
         (kl_take_go sid k st (q - min b.qty q) rest).2) := by
  simp [kl_take_go, hm, hq]

theorem kl_take_go_cons_skip {sid : Nat} {k : String} {st : LotState} {b : LotRow}
    {rest : List LotRow} {q : Int}
    (hc : ¬ (kl_match_state sid k st b = true ∧ 0 < q)) :
    kl_take_go sid k st q (b :: rest) =
      ((kl_take_go sid k st q rest).1, b :: (kl_take_go sid k st q rest).2) := by
  simp only [kl_take_go, if_neg hc]

theorem fifoConsumeLots_cons_pos {b : LotRow} {rest : List LotRow} {q : Int}
    (hq : 0 < q) :
    fifoConsumeLots q (b :: rest) =
      (min b.qty q + (fifoConsumeLots (q - min b.qty q) rest).1,
       if b.qty - min b.qty q ≤ 0 then (fifoConsumeLots (q - min b.qty q) rest).2
       else { b with qty := b.qty - min b.qty q } ::
         (fifoConsumeLots (q - min b.qty q) rest).2) := by
  simp [fifoConsumeLots, hq]

theorem kl_take_go_spec (sid : Nat) (k : String) (st : LotState) (q : Int)
    (l : List LotRow) :
    (kl_take_go sid k st q l).1 =
      (fifoConsumeLots q (l.filter (kl_match_state sid k st))).1 ∧
    (kl_take_go sid k st q l).2.filter (kl_match_state sid k st) =
      (fifoConsumeLots q (l.filter (kl_match_state sid k st))).2 ∧
    (kl_take_go sid k st q l).2.filter (fun x => !kl_match_state sid k st x) =
      l.filter (fun x => !kl_match_state sid k st x) := by
  induction l generalizing q with
  | nil => simp [kl_take_go, fifoConsumeLots]
  | cons b rest ih =>
    by_cases hm : kl_match_state sid k st b = true
    · by_cases hq : 0 < q
      · obtain ⟨ih1, ih2, ih3⟩ := ih (q - min b.qty q)
        rw [kl_take_go_cons_hit hm hq, List.filter_cons_of_pos hm,
          fifoConsumeLots_cons_pos hq]
        refine ⟨by rw [ih1], ?_, ?_⟩
        · by_cases hdel : b.qty - min b.qty q ≤ 0
          · rw [if_pos hdel, if_pos hdel, ih2]
          · rw [if_neg hdel, if_neg hdel,
              List.filter_cons_of_pos (show kl_match_state sid k st
                { b with qty := b.qty - min b.qty q } = true from hm), ih2]
        · by_cases hdel : b.qty - min b.qty q ≤ 0
          · rw [if_pos hdel, ih3,
              List.filter_cons_of_neg (by simp [hm])]
          · have hb2 : kl_match_state sid k st
                { b with qty := b.qty - min b.qty q } = true := hm
            rw [if_neg hdel,
              List.filter_cons_of_neg (p := fun x => !kl_match_state sid k st x)
                (by simp [hb2]),
              ih3,
              List.filter_cons_of_neg (p := fun x => !kl_match_state sid k st x)
                (by simp [hm])]
      · have hrest := kl_take_go_nonpos sid k st q rest (by omega)
        rw [kl_take_go_cons_skip (fun h => hq h.2), hrest,
          List.filter_cons_of_pos hm,
          fifoConsumeLots_nonpos q _ (by omega)]
        exact ⟨rfl, rfl, rfl⟩
    · obtain ⟨ih1, ih2, ih3⟩ := ih q
      rw [kl_take_go_cons_skip (fun h => hm h.1),
        List.filter_cons_of_neg hm, List.filter_cons_of_neg hm,
        List.filter_cons_of_pos (by simp [hm]),
        List.filter_cons_of_pos (by simp [hm]), ih3]
      exact ⟨ih1, ih2, rfl⟩

theorem lot_sum_nonneg {l : List LotRow} (h : ∀ b ∈ l, 0 < b.qty) :
    0 ≤ (l.map (·.qty)).sum := by
  induction l with
  | nil => simp
  | cons b rest ih =>
    have hb := h b (by simp)
    have := ih (fun x hx => h x (by simp [hx]))
    simp only [List.map_cons, List.sum_cons]
    omega

theorem fifoConsumeLots_fst_min {q : Int} {l : List LotRow} (hq : 0 ≤ q)
    (h : ∀ b ∈ l, 0 < b.qty) :
    (fifoConsumeLots q l).1 = min q ((l.map (·.qty)).sum) := by
  induction l generalizing q with
  | nil => simp [fifoConsumeLots]; omega
  | cons b rest ih =>
    have hb := h b (by simp)
    have hrest : ∀ x ∈ rest, 0 < x.qty := fun x hx => h x (by simp [hx])
    have hsr := lot_sum_nonneg hrest
    by_cases hpos : 0 < q
    · rw [fifoConsumeLots_cons_pos hpos, ih (by omega) hrest]
      simp only [List.map_cons, List.sum_cons]
      omega
    · rw [fifoConsumeLots_nonpos q _ (by omega)]
      simp only [List.map_cons, List.sum_cons]
      omega

theorem fifoConsumeLots_sum (q : Int) (l : List LotRow) :
    ((fifoConsumeLots q l).2.map (·.qty)).sum =
      (l.map (·.qty)).sum - (fifoConsumeLots q l).1 := by
  induction l generalizing q with
  | nil => simp [fifoConsumeLots]
  | cons b rest ih =>
    by_cases hpos : 0 < q
    · rw [fifoConsumeLots_cons_pos hpos]
      by_cases hdel : b.qty - min b.qty q ≤ 0
      · have hmin : min b.qty q ≤ b.qty := min_le_left _ _
        rw [if_pos hdel]
        have := ih (q - min b.qty q)
        simp only [List.map_cons, List.sum_cons]
        omega
      · rw [if_neg hdel]
        have := ih (q - min b.qty q)
        simp only [List.map_cons, List.sum_cons]
        omega
    · rw [fifoConsumeLots_nonpos q _ (by omega)]
      simp

theorem fifoConsumeLots_pos {q : Int} {l : List LotRow}
    (h : ∀ b ∈ l, 0 < b.qty) :
    ∀ b ∈ (fifoConsumeLots q l).2, 0 < b.qty := by
  induction l generalizing q with
  | nil => simp [fifoConsumeLots]
  | cons b rest ih =>
    have hb := h b (by simp)
    have hrest : ∀ x ∈ rest, 0 < x.qty := fun x hx => h x (by simp [hx])
    by_cases hpos : 0 < q
    · rw [fifoConsumeLots_cons_pos hpos]
      by_cases hdel : b.qty - min b.qty q ≤ 0
      · rw [if_pos hdel]
        exact ih hrest
      · rw [if_neg hdel]
        intro x hx
        rcases List.mem_cons.mp hx with hx | hx
        · subst hx; simp; omega
        · exact ih hrest x hx
    · rw [fifoConsumeLots_nonpos q _ (by omega)]
      exact h

theorem fifoConsumeLots_drained {q : Int} {l : List LotRow}
    (h : ∀ b ∈ l, 0 < b.qty) (hall : (l.map (·.qty)).sum ≤ q) :
    (fifoConsumeLots q l).2 = [] := by
  induction l generalizing q with
  | nil => simp [fifoConsumeLots]
  | cons b rest ih =>
    have hb := h b (by simp)
    have hrest : ∀ x ∈ rest, 0 < x.qty := fun x hx => h x (by simp [hx])
    have hsr := lot_sum_nonneg hrest
    simp only [List.map_cons, List.sum_cons] at hall
    have hpos : 0 < q := by omega
    rw [fifoConsumeLots_cons_pos hpos]
    rw [if_pos (by omega)]
    exact ih hrest (by omega)

theorem kl_take_go_pos {sid : Nat} {k : String} {st : LotState} {q : Int}
    {l : List LotRow} (h : ∀ b ∈ l, 0 < b.qty) :
    ∀ b ∈ (kl_take_go sid k st q l).2, 0 < b.qty := by
  induction l generalizing q with
  | nil => simp [kl_take_go]
  | cons b rest ih =>
    have hb := h b (by simp)
    have hrest : ∀ x ∈ rest, 0 < x.qty := fun x hx => h x (by simp [hx])
    by_cases hc : kl_match_state sid k st b = true ∧ 0 < q
    · rw [kl_take_go_cons_hit hc.1 hc.2]
      by_cases hdel : b.qty - min b.qty q ≤ 0
      · rw [if_pos hdel]
        exact ih hrest
      · rw [if_neg hdel]
        intro x hx
        rcases List.mem_cons.mp hx with hx | hx
        · subst hx; simp; omega
        · exact ih hrest x hx
    · rw [kl_take_go_cons_skip hc]
      intro x hx
      rcases List.mem_cons.mp hx with hx | hx
      · subst hx; exact hb
      · exact ih hrest x hx

theorem lot_sum_state_split (sid : Nat) (k : String) (l : List LotRow) :
    ((l.filter (kl_match sid k)).map (·.qty)).sum =
      ((l.filter (kl_match_state sid k LotState.frisch)).map (·.qty)).sum +
      ((l.filter (kl_match_state sid k LotState.getrocknet)).map (·.qty)).sum := by
  induction l with
  | nil => simp
  | cons a rest ih =>
    by_cases hm : kl_match sid k a = true
    · cases hst : a.state with
      | frisch =>
        have h1 : kl_match_state sid k LotState.frisch a = true := by
          simp [kl_match_state, hm, hst]
        have h2 : ¬ kl_match_state sid k LotState.getrocknet a = true := by
          simp [kl_match_state, hm, hst]
        rw [List.filter_cons_of_pos hm, List.filter_cons_of_pos h1,
          List.filter_cons_of_neg h2]
        simp only [List.map_cons, List.sum_cons]
        omega
      | getrocknet =>
        have h1 : ¬ kl_match_state sid k LotState.frisch a = true := by
          simp [kl_match_state, hm, hst]
        have h2 : kl_match_state sid k LotState.getrocknet a = true := by
          simp [kl_match_state, hm, hst]
        rw [List.filter_cons_of_pos hm, List.filter_cons_of_neg h1,
          List.filter_cons_of_pos h2]
        simp only [List.map_cons, List.sum_cons]
        omega
    · have h1 : ¬ kl_match_state sid k LotState.frisch a = true := by
        simp [kl_match_state]; intro hx; exact absurd hx hm
      have h2 : ¬ kl_match_state sid k LotState.getrocknet a = true := by
        simp [kl_match_state]; intro hx; exact absurd hx hm
      rw [List.filter_cons_of_neg hm, List.filter_cons_of_neg h1,
        List.filter_cons_of_neg h2, ih]

theorem kl_take_herb_eq (sid : Nat) (d : String) (q : Int) (db : DB) :
    kl_take_herb sid d q db =
      ((kl_take_go sid (norm_key d) LotState.frisch q db.lots).1 +
        (kl_take_go sid (norm_key d) LotState.getrocknet
          (q - (kl_take_go sid (norm_key d) LotState.frisch q db.lots).1)
          (kl_take_go sid (norm_key d) LotState.frisch q db.lots).2).1,
       { db with lots := (kl_take_go sid (norm_key d) LotState.getrocknet
          (q - (kl_take_go sid (norm_key d) LotState.frisch q db.lots).1)
          (kl_take_go sid (norm_key d) LotState.frisch q db.lots).2).2 }) := rfl

theorem fresh_imp_not_dried (sid : Nat) (k : String) :
    ∀ x : LotRow, kl_match_state sid k LotState.frisch x = true →
      (!kl_match_state sid k LotState.getrocknet x) = true := by
  intro x hx
  simp only [kl_match_state, Bool.and_eq_true, beq_iff_eq] at hx ⊢
  simp [hx.2]

theorem dried_imp_not_fresh (sid : Nat) (k : String) :
    ∀ x : LotRow, kl_match_state sid k LotState.getrocknet x = true →
      (!kl_match_state sid k LotState.frisch x) = true := by
  intro x hx
  simp only [kl_match_state, Bool.and_eq_true, beq_iff_eq] at hx ⊢
  simp [hx.2]

theorem kl_match_state_imp (sid : Nat) (k : String) (st : LotState) :
    ∀ x : LotRow, kl_match_state sid k st x = true → kl_match sid k x = true := by
  intro x hx
  simp only [kl_match_state, Bool.and_eq_true] at hx
  exact hx.1

theorem kl_take_herb_spec (sid : Nat) (d : String) (q : Int) (db : DB) :
    (kl_take_herb sid d q db).1 =
      (fifoConsumeLots q
        (db.lots.filter (kl_match_state sid (norm_key d) LotState.frisch))).1 +
      (fifoConsumeLots
        (q - (fifoConsumeLots q
          (db.lots.filter (kl_match_state sid (norm_key d) LotState.frisch))).1)
        (db.lots.filter (kl_match_state sid (norm_key d) LotState.getrocknet))).1 ∧
    (kl_take_herb sid d q db).2.lots.filter
        (kl_match_state sid (norm_key d) LotState.frisch) =
      (fifoConsumeLots q
        (db.lots.filter (kl_match_state sid (norm_key d) LotState.frisch))).2 ∧
    (kl_take_herb sid d q db).2.lots.filter
        (kl_match_state sid (norm_key d) LotState.getrocknet) =
      (fifoConsumeLots
        (q - (fifoConsumeLots q
          (db.lots.filter (kl_match_state sid (norm_key d) LotState.frisch))).1)
        (db.lots.filter (kl_match_state sid (norm_key d) LotState.getrocknet))).2 ∧
    (∀ p : LotRow → Bool, (∀ x, p x = true → kl_match sid (norm_key d) x = false) →
      (kl_take_herb sid d q db).2.lots.filter p = db.lots.filter p) := by
  obtain ⟨s11, s12, s13⟩ :=
    kl_take_go_spec sid (norm_key d) LotState.frisch q db.lots
  obtain ⟨s21, s22, s23⟩ :=
    kl_take_go_spec sid (norm_key d) LotState.getrocknet
      (q - (kl_take_go sid (norm_key d) LotState.frisch q db.lots).1)
      (kl_take_go sid (norm_key d) LotState.frisch q db.lots).2
  have hdm : (kl_take_go sid (norm_key d) LotState.frisch q db.lots).2.filter
      (kl_match_state sid (norm_key d) LotState.getrocknet) =
      db.lots.filter (kl_match_state sid (norm_key d) LotState.getrocknet) :=
    filter_eq_of_imp (dried_imp_not_fresh sid (norm_key d)) s13
  rw [kl_take_herb_eq]
  refine ⟨?_, ?_, ?_, ?_⟩
  · simp only []
    rw [s21, hdm, s11]
  · simp only []
    have := filter_eq_of_imp (fresh_imp_not_dried sid (norm_key d)) s23
    rw [this, s12]
  · simp only []
    rw [s22, hdm, s11]
  · intro p hp
    have hp1 : ∀ x : LotRow, p x = true →
        (!kl_match_state sid (norm_key d) LotState.frisch x) = true := by
      intro x hx
      have := hp x hx
      simp only [kl_match_state, Bool.not_eq_true]
      simp [this]
    have hp2 : ∀ x : LotRow, p x = true →
        (!kl_match_state sid (norm_key d) LotState.getrocknet x) = true := by
      intro x hx
      have := hp x hx
      simp only [kl_match_state, Bool.not_eq_true]
      simp [this]
    simp only []
    rw [filter_eq_of_imp hp2 s23, filter_eq_of_imp hp1 s13]

theorem kl_take_herb_removed {sid : Nat} {d : String} {q : Int} {db : DB}
    (hq : 0 ≤ q) (h : ∀ l ∈ db.lots, 0 < l.qty) :
    (kl_take_herb sid d q db).1 =
      min q (kl_total_available db sid (norm_key d)) := by
  have hf : ∀ l ∈ db.lots.filter (kl_match_state sid (norm_key d) LotState.frisch),
      0 < l.qty := fun l hl => h l (List.mem_of_mem_filter hl)
  have hd : ∀ l ∈ db.lots.filter (kl_match_state sid (norm_key d) LotState.getrocknet),
      0 < l.qty := fun l hl => h l (List.mem_of_mem_filter hl)
  have hsf := lot_sum_nonneg hf
  have hsd := lot_sum_nonneg hd
  have h1 := (kl_take_herb_spec sid d q db).1
  rw [h1, fifoConsumeLots_fst_min hq hf]
  rw [fifoConsumeLots_fst_min (by omega) hd]
  unfold kl_total_available
  rw [lot_sum_state_split]
  omega

theorem kl_take_herb_total_after (sid : Nat) (d : String) (q : Int) (db : DB) :
    kl_total_available (kl_take_herb sid d q db).2 sid (norm_key d) =
      kl_total_available db sid (norm_key d) - (kl_take_herb sid d q db).1 := by
  obtain ⟨h1, h2, h3, -⟩ := kl_take_herb_spec sid d q db
  unfold kl_total_available
  rw [lot_sum_state_split, lot_sum_state_split, h2, h3,
    fifoConsumeLots_sum, fifoConsumeLots_sum, h1]
  omega

theorem kl_take_herb_total_other {sid : Nat} {d : String} {q : Int} {db : DB}
    {sid2 : Nat} {k2 : String} (hne : ¬ (sid2 = sid ∧ k2 = norm_key d)) :
    kl_total_available (kl_take_herb sid d q db).2 sid2 k2 =
      kl_total_available db sid2 k2 := by
  obtain ⟨-, -, -, h4⟩ := kl_take_herb_spec sid d q db
  unfold kl_total_available
  rw [h4]
  intro x hx
  simp only [kl_match, Bool.and_eq_true, beq_iff_eq] at hx
  cases hm : kl_match sid (norm_key d) x
  · rfl
  · exfalso
    simp only [kl_match, Bool.and_eq_true, beq_iff_eq] at hm
    exact hne ⟨by rw [← hx.1, hm.1], by rw [← hx.2, hm.2]⟩

theorem kl_take_herb_pos {sid : Nat} {d : String} {q : Int} {db : DB}
    (h : ∀ l ∈ db.lots, 0 < l.qty) :
    ∀ l ∈ (kl_take_herb sid d q db).2.lots, 0 < l.qty := by
  rw [kl_take_herb_eq]
  exact kl_take_go_pos (kl_take_go_pos h)

theorem kl_take_herb_fbh (sid : Nat) (d : String) (q : Int) (db : DB) :
    (kl_take_herb sid d q db).2.fbh = db.fbh := rfl

theorem kl_take_herb_pantry (sid : Nat) (d : String) (q : Int) (db : DB) :
    (kl_take_herb sid d q db).2.pantry = db.pantry := rfl

theorem fbh_take_eq (sid : Nat) (d : String) (q : Int) (db : DB) :
    fbh_take sid d q db =
      ((fbh_take_go sid (norm_key d) q db.fbh).1,
       { db with fbh := (fbh_take_go sid (norm_key d) q db.fbh).2 }) := rfl

theorem fbh_take_removed {sid : Nat} {d : String} {q : Int} {db : DB}
    (hq : 0 ≤ q) (h : ∀ b ∈ db.fbh, 0 < b.qty) :
    (fbh_take sid d q db).1 =
      min q (((db.fbh.filter (fbh_match sid (norm_key d))).map (·.qty)).sum) := by
  have hf : ∀ b ∈ db.fbh.filter (fbh_match sid (norm_key d)), 0 < b.qty :=
    fun b hb => h b (List.mem_of_mem_filter hb)
  rw [fbh_take_eq]
  simp only []
  rw [(fbh_take_go_spec sid (norm_key d) q db.fbh).1,
    fifoConsumeBatches_fst_min hq hf]

theorem norm_key_canonical {name : String} {allowed : List String}
    (h : is_allowed name allowed = true) :
    norm_key (canonical name allowed) = norm_key name := by
  unfold is_allowed allowedLookup at h
  unfold canonical allowedLookup
  cases hx : allowed.reverse.find? (fun x => norm_key x == norm_key name) with
  | none => rw [hx] at h; simp at h
  | some x =>
    have hpx := List.find?_some hx
    simp only [beq_iff_eq] at hpx
    simp only [Option.getD_some, hpx]

theorem kl_mark_dried_proj (sid : Nat) (c : Int) (db : DB) :
    (kl_mark_dried_older_than sid c db).lots.map
        (fun l => (l.storage_id, l.herb_key, l.herb_display, l.qty,
          l.added_at, l.added_by)) =
      db.lots.map (fun l => (l.storage_id, l.herb_key, l.herb_display, l.qty,
          l.added_at, l.added_by)) := by
  unfold kl_mark_dried_older_than
  simp only [List.map_map]
  apply List.map_congr_left
  intro l _
  by_cases h : l.storage_id = sid ∧ l.state = LotState.frisch ∧ l.added_at ≤ c
  · simp [h]
  · simp [h]

theorem kl_mark_dried_match_qty (sid : Nat) (c : Int) (sid2 : Nat) (k2 : String)
    (l : LotRow) :
    kl_match sid2 k2 (if l.storage_id = sid ∧ l.state = LotState.frisch ∧
        l.added_at ≤ c then { l with state := LotState.getrocknet } else l) =
      kl_match sid2 k2 l ∧
    (if l.storage_id = sid ∧ l.state = LotState.frisch ∧
        l.added_at ≤ c then { l with state := LotState.getrocknet } else l).qty =
      l.qty := by
  by_cases h : l.storage_id = sid ∧ l.state = LotState.frisch ∧ l.added_at ≤ c
  · simp [h, kl_match]
  · simp [h]

theorem kl_mark_dried_total (sid : Nat) (c : Int) (db : DB) (sid2 : Nat)
    (k2 : String) :
    kl_total_available (kl_mark_dried_older_than sid c db) sid2 k2 =
      kl_total_available db sid2 k2 := by
  unfold kl_total_available kl_mark_dried_older_than
  simp only []
  induction db.lots with
  | nil => rfl
  | cons a rest ih =>
    obtain ⟨hm, hq⟩ := kl_mark_dried_match_qty sid c sid2 k2 a
    rw [List.map_cons]
    by_cases ha : kl_match sid2 k2 a = true
    · rw [List.filter_cons_of_pos (by rw [hm]; exact ha),
        List.filter_cons_of_pos ha]
      simp only [List.map_cons, List.sum_cons, hq, ih]
    · rw [List.filter_cons_of_neg (by rw [hm]; exact ha),
        List.filter_cons_of_neg ha, ih]

theorem kl_mark_dried_pos {sid : Nat} {c : Int} {db : DB}
    (h : ∀ l ∈ db.lots, 0 < l.qty) :
    ∀ l ∈ (kl_mark_dried_older_than sid c db).lots, 0 < l.qty := by
  unfold kl_mark_dried_older_than
  simp only [List.mem_map]
  rintro x ⟨a, ha, rfl⟩
  obtain ⟨-, hq⟩ := kl_mark_dried_match_qty sid c 0 "" a
  rw [hq]
  exact h a ha

theorem kl_mark_dried_fbh (sid : Nat) (c : Int) (db : DB) :
    (kl_mark_dried_older_than sid c db).fbh = db.fbh := rfl

theorem kl_mark_dried_pantry (sid : Nat) (c : Int) (db : DB) :
    (kl_mark_dried_older_than sid c db).pantry = db.pantry := rfl

theorem kl_mark_dried_compose {sid : Nat} {c1 c2 : Int} (h12 : c1 ≤ c2) (db : DB) :
    kl_mark_dried_older_than sid c2 (kl_mark_dried_older_than sid c1 db) =
      kl_mark_dried_older_than sid c2 db := by
  unfold kl_mark_dried_older_than
  simp only [List.map_map]
  congr 1
  apply List.map_congr_left
  intro l _
  simp only [Function.comp]
  by_cases h1 : l.storage_id = sid ∧ l.state = LotState.frisch ∧ l.added_at ≤ c1
  · rw [if_pos h1]
    have hc2 : ¬ (({ l with state := LotState.getrocknet } : LotRow).storage_id = sid ∧
        ({ l with state := LotState.getrocknet } : LotRow).state = LotState.frisch ∧
        ({ l with state := LotState.getrocknet } : LotRow).added_at ≤ c2) := by
      rintro ⟨-, hst, -⟩
      simp at hst
    rw [if_neg hc2, if_pos ⟨h1.1, h1.2.1, le_trans h1.2.2 h12⟩]
  · rw [if_neg h1]

theorem kl_apply_drying_disabled {settings : Settings} (sid : Nat) (now : Int)
    (db : DB) (h : settings.kl_trocknen = false) :
    kl_apply_drying_if_enabled settings sid now db = db := by
  simp [kl_apply_drying_if_enabled, h]

theorem kl_apply_drying_total (settings : Settings) (sid : Nat) (now : Int)
    (db : DB) (sid2 : Nat) (k2 : String) :
    kl_total_available (kl_apply_drying_if_enabled settings sid now db) sid2 k2 =
      kl_total_available db sid2 k2 := by
  unfold kl_apply_drying_if_enabled
  by_cases h : settings.kl_trocknen
  · rw [if_pos h, kl_mark_dried_total]
  · rw [if_neg h]

theorem kl_apply_drying_pos {settings : Settings} {sid : Nat} {now : Int}
    {db : DB} (h : ∀ l ∈ db.lots, 0 < l.qty) :
    ∀ l ∈ (kl_apply_drying_if_enabled settings sid now db).lots, 0 < l.qty := by
  unfold kl_apply_drying_if_enabled
  by_cases ht : settings.kl_trocknen
  · rw [if_pos ht]; exact kl_mark_dried_pos h
  · rw [if_neg ht]; exact h

theorem kl_apply_drying_fbh (settings : Settings) (sid : Nat) (now : Int)
    (db : DB) :
    (kl_apply_drying_if_enabled settings sid now db).fbh = db.fbh := by
  unfold kl_apply_drying_if_enabled
  by_cases ht : settings.kl_trocknen
  · rw [if_pos ht]; rfl
  · rw [if_neg ht]

theorem kl_apply_drying_pantry (settings : Settings) (sid : Nat) (now : Int)
    (db : DB) :
    (kl_apply_drying_if_enabled settings sid now db).pantry = db.pantry := by
  unfold kl_apply_drying_if_enabled
  by_cases ht : settings.kl_trocknen
  · rw [if_pos ht]; rfl
  · rw [if_neg ht]

theorem kl_apply_drying_proj (settings : Settings) (sid : Nat) (now : Int)
    (db : DB) :
    (kl_apply_drying_if_enabled settings sid now db).lots.map
        (fun l => (l.storage_id, l.herb_key, l.herb_display, l.qty,
          l.added_at, l.added_by)) =
      db.lots.map (fun l => (l.storage_id, l.herb_key, l.herb_display, l.qty,
          l.added_at, l.added_by)) := by
  unfold kl_apply_drying_if_enabled
  by_cases ht : settings.kl_trocknen
  · rw [if_pos ht]; exact kl_mark_dried_proj sid _ db
  · rw [if_neg ht]

theorem pantry_match_iff (sid : Nat) (k : String) (x : PantryRow) :
    pantry_match sid k x = true ↔ x.storage_id = sid ∧ x.item_key = k := by
  simp [pantry_match]

theorem pantry_filter_unique {l : List PantryRow} {sid : Nat} {k : String}
    {r : PantryRow}
    (hnd : (l.map (fun p => (p.storage_id, p.item_key))).Nodup)
    (hf : l.find? (pantry_match sid k) = some r) :
    l.filter (pantry_match sid k) = [r] := by
  induction l with
  | nil => simp at hf
  | cons a rest ih =>
    by_cases ha : pantry_match sid k a = true
    · rw [List.find?_cons_of_pos _ ha] at hf
      injection hf with hf
      subst hf
      rw [List.filter_cons_of_pos ha]
      have hrest : rest.filter (pantry_match sid k) = [] := by
        rw [List.filter_eq_nil_iff]
        intro x hx hp
        obtain ⟨ha1, ha2⟩ := (pantry_match_iff sid k a).mp ha
        obtain ⟨hp1, hp2⟩ := (pantry_match_iff sid k x).mp hp
        have hmem : (a.storage_id, a.item_key) ∈
            rest.map (fun p => (p.storage_id, p.item_key)) := by
          refine List.mem_map.mpr ⟨x, hx, ?_⟩
          rw [ha1, ha2, hp1, hp2]
        exact (List.nodup_cons.mp hnd).1 hmem
      rw [hrest]
    · rw [List.find?_cons_of_neg _ ha] at hf
      rw [List.filter_cons_of_neg ha]
      exact ih (List.nodup_cons.mp hnd).2 hf

theorem pantry_match_update (s2 sid : Nat) (k2 k : String) (v now : Int)
    (u : Nat) (x : PantryRow) :
    pantry_match s2 k2 (if pantry_match sid k x = true then
        { x with qty := v, updated_at := now, updated_by := u } else x) =
      pantry_match s2 k2 x := by
  by_cases h : pantry_match sid k x = true
  · rw [if_pos h]
    simp [pantry_match]
  · rw [if_neg h]

theorem pantry_add_sum_same (sid : Nat) (d : String) (q now : Int) (u : Nat)
    (db : DB)
    (hnd : (db.pantry.map (fun p => (p.storage_id, p.item_key))).Nodup) :
    pantry_sum (pantry_add sid d q now u db) sid (norm_key d) =
      pantry_sum db sid (norm_key d) + q := by
  unfold pantry_add pantry_sum
  cases hf : db.pantry.find? (pantry_match sid (norm_key d)) with
  | none =>
    simp only [hf]
    have hnil : db.pantry.filter (pantry_match sid (norm_key d)) = [] := by
      rw [List.filter_eq_nil_iff]
      intro x hx
      have := List.find?_eq_none.mp hf x hx
      simpa using this
    rw [List.filter_append, hnil]
    simp [pantry_match]
  | some r =>
    simp only [hf]
    have huniq := pantry_filter_unique hnd hf
    have hcomp : (pantry_match sid (norm_key d) ∘
          (fun p => if pantry_match sid (norm_key d) p = true then
            { p with qty := r.qty + q, updated_at := now, updated_by := u }
          else p)) = pantry_match sid (norm_key d) := by
      funext x
      exact pantry_match_update sid sid (norm_key d) (norm_key d) (r.qty + q) now u x
    rw [List.filter_map, hcomp, huniq]
    have hr : pantry_match sid (norm_key d) r = true := List.find?_some hf
    simp [hr]

theorem pantry_add_sum_other (sid : Nat) (d : String) (q now : Int) (u : Nat)
    (db : DB) (sid2 : Nat) (k2 : String)
    (hne : ¬ (sid2 = sid ∧ k2 = norm_key d)) :
    pantry_sum (pantry_add sid d q now u db) sid2 k2 =
      pantry_sum db sid2 k2 := by
  unfold pantry_add pantry_sum
  cases hf : db.pantry.find? (pantry_match sid (norm_key d)) with
  | none =>
    simp only [hf]
    have hside : ¬ pantry_match sid2 k2
        (⟨sid, norm_key d, py_strip d, q, now, u⟩ : PantryRow) = true := by
      intro hp
      obtain ⟨h1, h2⟩ := (pantry_match_iff sid2 k2 _).mp hp
      exact hne ⟨h1.symm, h2.symm⟩
    rw [List.filter_append, List.filter_cons_of_neg hside, List.filter_nil,
      List.append_nil]
  | some r =>
    simp only [hf]
    have hcomp : (pantry_match sid2 k2 ∘
          (fun p => if pantry_match sid (norm_key d) p = true then
            { p with qty := r.qty + q, updated_at := now, updated_by := u }
          else p)) = pantry_match sid2 k2 := by
      funext x
      exact pantry_match_update sid2 sid k2 (norm_key d) (r.qty + q) now u x
    rw [List.filter_map, hcomp]
    have : ∀ x ∈ db.pantry.filter (pantry_match sid2 k2),
        (fun p => if pantry_match sid (norm_key d) p = true then
          { p with qty := r.qty + q, updated_at := now, updated_by := u }
        else p) x = x := by
      intro x hx
      have hx2 := List.of_mem_filter hx
      have hnp : ¬ pantry_match sid (norm_key d) x = true := by
        intro hp
        obtain ⟨h1, h2⟩ := (pantry_match_iff sid (norm_key d) x).mp hp
        obtain ⟨h3, h4⟩ := (pantry_match_iff sid2 k2 x).mp hx2
        exact hne ⟨by rw [← h3, h1], by rw [← h4, h2]⟩
      simp only [if_neg hnp]
    rw [List.map_congr_left this]
    simp

theorem pantry_add_pos {sid : Nat} {d : String} {q now : Int} {u : Nat}
    {db : DB} (hq : 0 < q) (hpos : ∀ p ∈ db.pantry, 0 < p.qty) :
    ∀ p ∈ (pantry_add sid d q now u db).pantry, 0 < p.qty := by
  unfold pantry_add
  cases hf : db.pantry.find? (pantry_match sid (norm_key d)) with
  | none =>
    simp only [hf]
    intro p hp
    rcases List.mem_append.mp hp with hp | hp
    · exact hpos p hp
    · simp only [List.mem_singleton] at hp
      subst hp
      exact hq
  | some r =>
    simp only [hf, List.mem_map]
    rintro p ⟨a, ha, rfl⟩
    have hr : r ∈ db.pantry := List.mem_of_find?_eq_some hf
    by_cases hpa : pantry_match sid (norm_key d) a = true
    · rw [if_pos hpa]
      have := hpos r hr
      simp only []
      omega
    · rw [if_neg hpa]
      exact hpos a ha

theorem pantry_add_nodup {sid : Nat} {d : String} {q now : Int} {u : Nat}
    {db : DB}
    (hnd : (db.pantry.map (fun p => (p.storage_id, p.item_key))).Nodup) :
    ((pantry_add sid d q now u db).pantry.map
      (fun p => (p.storage_id, p.item_key))).Nodup := by
  unfold pantry_add
  cases hf : db.pantry.find? (pantry_match sid (norm_key d)) with
  | none =>
    simp only [hf, List.map_append]
    rw [List.nodup_append]
    refine ⟨hnd, by simp, ?_⟩
    intro x hx
    simp only [List.map_cons, List.map_nil, List.mem_singleton]
    intro hx2
    subst hx2
    obtain ⟨p, hp, hpe⟩ := List.mem_map.mp hx
    have : pantry_match sid (norm_key d) p = true := by
      rw [pantry_match_iff]
      exact ⟨congrArg Prod.fst hpe, congrArg Prod.snd hpe⟩
    exact absurd this (by simpa using List.find?_eq_none.mp hf p hp)
  | some r =>
    simp only [hf, List.map_map]
    have : ((fun p : PantryRow => (p.storage_id, p.item_key)) ∘
        (fun p => if pantry_match sid (norm_key d) p = true then
          { p with qty := r.qty + q, updated_at := now, updated_by := u }
        else p)) = (fun p : PantryRow => (p.storage_id, p.item_key)) := by
      funext x
      by_cases hpa : pantry_match sid (norm_key d) x = true
      · simp [Function.comp, hpa]
      · simp [Function.comp, hpa]
    rw [this]
    exact hnd

theorem pantry_add_fbh (sid : Nat) (d : String) (q now : Int) (u : Nat)
    (db : DB) : (pantry_add sid d q now u db).fbh = db.fbh := by
  unfold pantry_add
  cases hf : db.pantry.find? (pantry_match sid (norm_key d)) with
  | none => simp only [hf]
  | some r => simp only [hf]

theorem pantry_add_lots (sid : Nat) (d : String) (q now : Int) (u : Nat)
    (db : DB) : (pantry_add sid d q now u db).lots = db.lots := by
  unfold pantry_add
  cases hf : db.pantry.find? (pantry_match sid (norm_key d)) with
  | none => simp only [hf]
  | some r => simp only [hf]

theorem pantry_take_pos {sid : Nat} {d : String} {q : Int} {db : DB}
    (hpos : ∀ p ∈ db.pantry, 0 < p.qty) :
    ∀ p ∈ (pantry_take sid d q db).2.pantry, 0 < p.qty := by
  unfold pantry_take
  cases hf : db.pantry.find? (pantry_match sid (norm_key d)) with
  | none =>
    simp only [hf]
    exact hpos
  | some r =>
    simp only [hf]
    by_cases hz : r.qty - min r.qty q ≤ 0
    · rw [if_pos hz]
      intro p hp
      exact hpos p (List.mem_of_mem_filter hp)
    · rw [if_neg hz]
      simp only [List.mem_map]
      rintro p ⟨a, ha, rfl⟩
      by_cases hpa : pantry_match sid (norm_key d) a = true
      · rw [if_pos hpa]
        simp only []
        omega
      · rw [if_neg hpa]
        exact hpos a ha

theorem pantry_take_nodup {sid : Nat} {d : String} {q : Int} {db : DB}
    (hnd : (db.pantry.map (fun p => (p.storage_id, p.item_key))).Nodup) :
    ((pantry_take sid d q db).2.pantry.map
      (fun p => (p.storage_id, p.item_key))).Nodup := by
  unfold pantry_take
  cases hf : db.pantry.find? (pantry_match sid (norm_key d)) with
  | none =>
    simp only [hf]
    exact hnd
  | some r =>
    simp only [hf]
    by_cases hz : r.qty - min r.qty q ≤ 0
    · rw [if_pos hz]
      exact hnd.sublist (List.Sublist.map _ (List.filter_sublist _))
    · rw [if_neg hz]
      simp only [List.map_map]
      have : ((fun p : PantryRow => (p.storage_id, p.item_key)) ∘
          (fun p => if pantry_match sid (norm_key d) p = true then
            { p with qty := r.qty - min r.qty q }
          else p)) = (fun p : PantryRow => (p.storage_id, p.item_key)) := by
        funext x
        by_cases hpa : pantry_match sid (norm_key d) x = true
        · simp [Function.comp, hpa]
        · simp [Function.comp, hpa]
      rw [this]
      exact hnd

theorem pantry_take_fbh (sid : Nat) (d : String) (q : Int) (db : DB) :
    (pantry_take sid d q db).2.fbh = db.fbh := by
  unfold pantry_take
  cases hf : db.pantry.find? (pantry_match sid (norm_key d)) with
  | none => simp only [hf]
  | some r =>
    simp only [hf]
    by_cases hz : r.qty - min r.qty q ≤ 0
    · rw [if_pos hz]
    · rw [if_neg hz]

theorem pantry_take_lots (sid : Nat) (d : String) (q : Int) (db : DB) :
    (pantry_take sid d q db).2.lots = db.lots := by
  unfold pantry_take
  cases hf : db.pantry.find? (pantry_match sid (norm_key d)) with
  | none => simp only [hf]
  | some r =>
    simp only [hf]
    by_cases hz : r.qty - min r.qty q ≤ 0
    · rw [if_pos hz]
    · rw [if_neg hz]

theorem op_apply_WF {o : Op} {db : DB} (hWF : WFdb db) (hv : o.valid) :
    WFdb (o.apply db) := by
  obtain ⟨h1, h2, h3, h4⟩ := hWF
  cases o with
  | fbhAdd sid d q now u =>
    simp only [Op.valid] at hv
    refine ⟨?_, h2, h3, h4⟩
    simp only [Op.apply, fbh_add]
    intro b hb
    rcases List.mem_append.mp hb with hb | hb
    · exact h1 b hb
    · simp only [List.mem_singleton] at hb
      subst hb
      exact hv
  | fbhTake sid d q =>
    exact ⟨fbh_take_go_pos h1, h2, h3, h4⟩
  | klAdd sid d q now u =>
    simp only [Op.valid] at hv
    refine ⟨h1, ?_, h3, h4⟩
    simp only [Op.apply, kl_add_herb]
    intro l hl
    rcases List.mem_append.mp hl with hl | hl
    · exact h2 l hl
    · simp only [List.mem_singleton] at hl
      subst hl
      exact hv
  | klTake sid d q =>
    refine ⟨?_, kl_take_herb_pos h2, ?_, ?_⟩
    · rw [show (Op.apply (.klTake sid d q) db).fbh = db.fbh from
        kl_take_herb_fbh sid d q db]
      exact h1
    · rw [show (Op.apply (.klTake sid d q) db).pantry = db.pantry from
        kl_take_herb_pantry sid d q db]
      exact h3
    · rw [show (Op.apply (.klTake sid d q) db).pantry = db.pantry from
        kl_take_herb_pantry sid d q db]
      exact h4
  | produce sid d q now u =>
    simp only [Op.valid] at hv
    refine ⟨?_, ?_, pantry_add_pos hv h3, pantry_add_nodup h4⟩
    · rw [show (Op.apply (.produce sid d q now u) db).fbh = db.fbh from
        pantry_add_fbh sid d q now u db]
      exact h1
    · rw [show (Op.apply (.produce sid d q now u) db).lots = db.lots from
        pantry_add_lots sid d q now u db]
      exact h2
  | consume sid d q =>
    refine ⟨?_, ?_, pantry_take_pos h3, pantry_take_nodup h4⟩
    · rw [show (Op.apply (.consume sid d q) db).fbh = db.fbh from
        pantry_take_fbh sid d q db]
      exact h1
    · rw [show (Op.apply (.consume sid d q) db).lots = db.lots from
        pantry_take_lots sid d q db]
      exact h2

theorem runOps_WF {ops : List Op} {db : DB} (hWF : WFdb db)
    (hv : ∀ o ∈ ops, o.valid) : WFdb (runOps ops db) := by
  induction ops generalizing db with
  | nil => exact hWF
  | cons o rest ih =>
    exact ih (op_apply_WF hWF (hv o (by simp)))
      (fun x hx => hv x (by simp [hx]))

theorem mem_fbh_total {db : DB} {sid : Nat} {k : String}
    (hpos : ∀ b ∈ db.fbh, 0 < b.qty) (hk : k ∈ fbh_keys db sid) :
    (k, fbh_sum_key db sid k) ∈ fbh_total db sid := by
  unfold fbh_total
  apply List.mem_filter.mpr
  refine ⟨List.mem_map_of_mem _ hk, ?_⟩
  simp only [decide_eq_true_eq]
  obtain ⟨b, hb, hbk⟩ := List.mem_map.mp (List.mem_dedup.mp hk)
  have hbf : b ∈ (fbh_rows db sid).filter (fun x => x.item_key == k) :=
    List.mem_filter.mpr ⟨hb, by simp [hbk]⟩
  apply List.sum_pos
  · intro x hx
    obtain ⟨a, ha, rfl⟩ := List.mem_map.mp hx
    exact hpos a (List.mem_of_mem_filter (List.mem_of_mem_filter ha))
  · exact List.ne_nil_of_mem (List.mem_map_of_mem _ hbf)

theorem fbh_pile_flags_aux (now : Int) (saison : String) (enabled : Bool)
    (l : List Batch) (acc : Bool × Bool) :
    (l.foldl (fun acc b =>
      match batch_status now saison enabled b with
      | .verdorben => (true, acc.2)
      | .mueffelt => (acc.1, true)
      | .frisch => acc) acc) =
    (acc.1 || l.any (fun b =>
        batch_status now saison enabled b == FbhStatus.verdorben),
     acc.2 || l.any (fun b =>
        batch_status now saison enabled b == FbhStatus.mueffelt)) := by
  induction l generalizing acc with
  | nil => simp
  | cons b rest ih =>
    simp only [List.foldl_cons, List.any_cons]
    cases hst : batch_status now saison enabled b with
    | verdorben =>
      rw [ih]
      simp only [hst, Bool.or_assoc, Prod.mk.injEq]
      rw [show (FbhStatus.verdorben == FbhStatus.mueffelt) = false from rfl,
        show (FbhStatus.verdorben == FbhStatus.verdorben) = true from rfl]
      simp
    | mueffelt =>
      rw [ih]
      simp only [hst, Bool.or_assoc, Prod.mk.injEq]
      rw [show (FbhStatus.mueffelt == FbhStatus.verdorben) = false from rfl,
        show (FbhStatus.mueffelt == FbhStatus.mueffelt) = true from rfl]
      simp
    | frisch =>
      rw [ih]
      simp only [hst, Prod.mk.injEq]
      rw [show (FbhStatus.frisch == FbhStatus.verdorben) = false from rfl,
        show (FbhStatus.frisch == FbhStatus.mueffelt) = false from rfl]
      simp

theorem fbh_pile_flags_eq (now : Int) (saison : String) (enabled : Bool)
    (l : List Batch) :
    fbh_pile_flags now saison enabled l =
      (l.any (fun b => batch_status now saison enabled b == FbhStatus.verdorben),
       l.any (fun b => batch_status now saison enabled b == FbhStatus.mueffelt)) := by
  unfold fbh_pile_flags
  rw [fbh_pile_flags_aux]
  simp

/-- C3: spoilage classification is a pure function of age, season, and the
seasonal flag: thresholds are the default pair `(7, 14)` when seasonal mode
is off, the season table entry (falling back to the default pair for an
unrecognized season) when it is on — the summer season `Blattgrüne` maps to
`(2, 5)` — and classification is `age ≥ ruin ⇒ Ruined`, else
`age ≥ smell ⇒ Smelly`, else `Fresh`; in particular in non-seasonal mode
age 6 is Fresh, 7 Smelly, 14 Ruined, and under thresholds `(2, 5)` age 2 is
Smelly and age 5 Ruined. -/
theorem C3_spoilage_classification :
    (∀ (age : Int) (saison : String) (enabled : Bool),
      fbh_status_for_age_days age saison enabled =
        spec_classify (spec_thresholds saison enabled).1
          (spec_thresholds saison enabled).2 age) ∧
    (∀ saison : String, spec_thresholds saison false = (7, 14)) ∧
    SAISON_TIMES "Blattgrüne" = some (2, 5) ∧
    (∀ saison : String,
      saison ∉ (["Blattfrische", "Blattfall", "Blattleere",
        "Blattgrüne"] : List String) →
      ∀ enabled : Bool, spec_thresholds saison enabled = (7, 14)) ∧
    (∀ saison : String, fbh_status_for_age_days 6 saison false = .frisch) ∧
    (∀ saison : String, fbh_status_for_age_days 7 saison false = .mueffelt) ∧
    (∀ saison : String, fbh_status_for_age_days 14 saison false = .verdorben) ∧
    fbh_status_for_age_days 2 "Blattgrüne" true = .mueffelt ∧
    fbh_status_for_age_days 5 "Blattgrüne" true = .verdorben := by
  refine ⟨?_, ?_, by decide, ?_, ?_, ?_, ?_, by decide, by decide⟩
  · intro age saison enabled
    cases enabled <;> rfl
  · intro saison
    rfl
  · intro saison h enabled
    simp only [List.mem_cons, List.mem_singleton, not_or] at h
    obtain ⟨h1, h2, h3, h4⟩ := h
    cases enabled
    · rfl
    · simp [spec_thresholds, SAISON_TIMES, h1, h2, h3, h4]
  · intro saison
    rfl
  · intro saison
    rfl
  · intro saison
    rfl

/-- Witness for C3: instantiating the fallback clause at the unrecognized
season name `Herbst`. -/
theorem C3_spoilage_classification_witness :
    spec_thresholds "Herbst" true = (7, 14) :=
  C3_spoilage_classification.2.2.2.1 "Herbst" (by decide) true

/-- C4: the pile-level status a perishable storage with at least one live
batch reports is the worst batch status — `Ruined` exactly when some batch
classifies as Ruined, otherwise `Smelly` exactly when some batch classifies
as Smelly, otherwise `Fresh`.  Computing it mutates nothing: the status is
a pure function of the stored batches (the FBH branch of
`inventar_anzeigen` issues only SELECT statements), stated here by
computing it from `fbh_rows db sid` while `db` is left untouched.  The
concrete instance: batches aged 3 and 20 days under default thresholds
report Ruined. -/
theorem C4_pile_status_worst :
    (∀ (now : Int) (saison : String) (enabled : Bool) (db : DB) (sid : Nat),
      fbh_rows db sid ≠ [] →
      (fbh_pile_status now saison enabled (fbh_rows db sid) = .verdorben ↔
        ∃ b ∈ fbh_rows db sid,
          batch_status now saison enabled b = .verdorben) ∧
      (fbh_pile_status now saison enabled (fbh_rows db sid) = .mueffelt ↔
        (¬ ∃ b ∈ fbh_rows db sid,
          batch_status now saison enabled b = .verdorben) ∧
        ∃ b ∈ fbh_rows db sid, batch_status now saison enabled b = .mueffelt) ∧
      (fbh_pile_status now saison enabled (fbh_rows db sid) = .frisch ↔
        (¬ ∃ b ∈ fbh_rows db sid,
          batch_status now saison enabled b = .verdorben) ∧
        ¬ ∃ b ∈ fbh_rows db sid,
          batch_status now saison enabled b = .mueffelt)) ∧
    fbh_pile_status (20 * 86400) "Blattfrische" false
      [⟨1, "maus", "Maus", 2, 17 * 86400, 9⟩,
       ⟨1, "maus", "Maus", 1, 0, 9⟩] = .verdorben := by
  constructor
  · intro now saison enabled db sid hne
    unfold fbh_pile_status
    rw [fbh_pile_flags_eq]
    simp only [List.any_eq_true, beq_iff_eq]
    constructor
    · constructor
      · intro h
        by_cases hv : ∃ b ∈ fbh_rows db sid,
            batch_status now saison enabled b = FbhStatus.verdorben
        · exact hv
        · exfalso
          rw [if_neg hv] at h
          by_cases hm : ∃ b ∈ fbh_rows db sid,
              batch_status now saison enabled b = FbhStatus.mueffelt
          · rw [if_pos hm] at h
            exact FbhStatus.noConfusion h
          · rw [if_neg hm] at h
            exact FbhStatus.noConfusion h
      · intro hv
        rw [if_pos hv]
    constructor
    · constructor
      · intro h
        by_cases hv : ∃ b ∈ fbh_rows db sid,
            batch_status now saison enabled b = FbhStatus.verdorben
        · rw [if_pos hv] at h
          exact absurd h (by intro hh; exact FbhStatus.noConfusion hh)
        · rw [if_neg hv] at h
          by_cases hm : ∃ b ∈ fbh_rows db sid,
              batch_status now saison enabled b = FbhStatus.mueffelt
          · exact ⟨hv, hm⟩
          · rw [if_neg hm] at h
            exact absurd h (by intro hh; exact FbhStatus.noConfusion hh)
      · rintro ⟨hv, hm⟩
        rw [if_neg hv, if_pos hm]
    · constructor
      · intro h
        by_cases hv : ∃ b ∈ fbh_rows db sid,
            batch_status now saison enabled b = FbhStatus.verdorben
        · rw [if_pos hv] at h
          exact absurd h (by intro hh; exact FbhStatus.noConfusion hh)
        · by_cases hm : ∃ b ∈ fbh_rows db sid,
              batch_status now saison enabled b = FbhStatus.mueffelt
          · rw [if_neg hv, if_pos hm] at h
            exact absurd h (by intro hh; exact FbhStatus.noConfusion hh)
          · exact ⟨hv, hm⟩
      · rintro ⟨hv, hm⟩
        rw [if_neg hv, if_neg hm]
  · decide

/-- Witness for C4: the worst-of equivalences instantiated at a concrete
two-batch storage whose older batch is ruined. -/
theorem C4_pile_status_worst_witness :
    fbh_pile_status (20 * 86400) "Blattfrische" false
        (fbh_rows ⟨[⟨1, "maus", "Maus", 2, 17 * 86400, 9⟩,
          ⟨1, "maus", "Maus", 1, 0, 9⟩], [], []⟩ 1) = .verdorben ↔
      ∃ b ∈ fbh_rows ⟨[⟨1, "maus", "Maus", 2, 17 * 86400, 9⟩,
          ⟨1, "maus", "Maus", 1, 0, 9⟩], [], []⟩ 1,
        batch_status (20 * 86400) "Blattfrische" false b = .verdorben :=
  (C4_pile_status_worst.1 (20 * 86400) "Blattfrische" false
    ⟨[⟨1, "maus", "Maus", 2, 17 * 86400, 9⟩,
      ⟨1, "maus", "Maus", 1, 0, 9⟩], [], []⟩ 1 (by decide)).1

/-- C6: `applyAging` (`kl_mark_dried_older_than`) transitions exactly the
Fresh lots of the storage with added-at ≤ cutoff to Dried, preserving each
lot's quantity, timestamp and position (row identity); a second
application with the same or a later cutoff equals a single application
with that cutoff; and with the auto-drying toggle off the caller-side
wrapper `kl_apply_drying_if_enabled` performs no mutation at all. -/
theorem C6_aging_idempotent_in_place :
    (∀ (sid : Nat) (c : Int) (db : DB),
      (kl_mark_dried_older_than sid c db).lots.map
          (fun l => (l.storage_id, l.herb_key, l.herb_display, l.qty,
            l.added_at, l.added_by)) =
        db.lots.map (fun l => (l.storage_id, l.herb_key, l.herb_display,
          l.qty, l.added_at, l.added_by)) ∧
      (kl_mark_dried_older_than sid c db).fbh = db.fbh ∧
      (kl_mark_dried_older_than sid c db).pantry = db.pantry) ∧
    (∀ (sid : Nat) (c : Int) (db : DB) (i : Nat) (l l2 : LotRow),
      db.lots.get? i = some l →
      (kl_mark_dried_older_than sid c db).lots.get? i = some l2 →
      (l2.state = LotState.getrocknet ↔
        (l.state = LotState.getrocknet ∨
          (l.storage_id = sid ∧ l.state = LotState.frisch ∧
            l.added_at ≤ c)))) ∧
    (∀ (sid : Nat) (c1 c2 : Int) (db : DB), c1 ≤ c2 →
      kl_mark_dried_older_than sid c2 (kl_mark_dried_older_than sid c1 db) =
        kl_mark_dried_older_than sid c2 db) ∧
    (∀ (settings : Settings) (sid : Nat) (now : Int) (db : DB),
      settings.kl_trocknen = false →
      kl_apply_drying_if_enabled settings sid now db = db) := by
  refine ⟨?_, ?_, ?_, ?_⟩
  · intro sid c db
    exact ⟨kl_mark_dried_proj sid c db, rfl, rfl⟩
  · intro sid c db i l l2 hl hl2
    unfold kl_mark_dried_older_than at hl2
    simp only [List.get?_map, hl, Option.map_some, Option.map_some'] at hl2
    by_cases hcond : l.storage_id = sid ∧ l.state = LotState.frisch ∧
        l.added_at ≤ c
    · rw [if_pos hcond] at hl2
      injection hl2 with hl2
      subst hl2
      simp only []
      constructor
      · intro
        exact Or.inr hcond
      · intro
        trivial
    · rw [if_neg hcond] at hl2
      injection hl2 with hl2
      subst hl2
      constructor
      · intro h
        exact Or.inl h
      · rintro (h | h)
        · exact h
        · exact absurd h hcond
  · intro sid c1 c2 db h12
    exact kl_mark_dried_compose h12 db
  · intro settings sid now db h
    exact kl_apply_drying_disabled sid now db h

/-- Witness for C6: the composition clause at cutoffs 3 ≤ 5 on a one-lot
storage, and the disabled wrapper on the same storage. -/
theorem C6_aging_idempotent_in_place_witness :
    kl_mark_dried_older_than 1 5 (kl_mark_dried_older_than 1 3
        ⟨[], [⟨1, "basil", "Basil", 2, LotState.frisch, 0, 9⟩], []⟩) =
      kl_mark_dried_older_than 1 5
        ⟨[], [⟨1, "basil", "Basil", 2, LotState.frisch, 0, 9⟩], []⟩ ∧
    kl_apply_drying_if_enabled ⟨"Blattfrische", false, false⟩ 1 100
        ⟨[], [⟨1, "basil", "Basil", 2, LotState.frisch, 0, 9⟩], []⟩ =
      ⟨[], [⟨1, "basil", "Basil", 2, LotState.frisch, 0, 9⟩], []⟩ :=
  ⟨C6_aging_idempotent_in_place.2.2.1 1 3 5
      ⟨[], [⟨1, "basil", "Basil", 2, LotState.frisch, 0, 9⟩], []⟩ (by decide),
   C6_aging_idempotent_in_place.2.2.2 ⟨"Blattfrische", false, false⟩ 1 100
      ⟨[], [⟨1, "basil", "Basil", 2, LotState.frisch, 0, 9⟩], []⟩ rfl⟩

/-- C9: two spellings with the same normalized key (`norm_key` is the
case-fold + whitespace-collapse of the source) are interchangeable:
take behaves identically under either spelling, and a quantity added
under one spelling is aggregated into the per-key total of the other. -/
theorem C9_normalization_consistency :
    ∀ s1 s2 : String, norm_key s1 = norm_key s2 →
      (∀ (sid : Nat) (q : Int) (db : DB),
        fbh_take sid s1 q db = fbh_take sid s2 q db) ∧
      (∀ (sid : Nat) (q : Int) (db : DB),
        kl_take_herb sid s1 q db = kl_take_herb sid s2 q db) ∧
      (∀ (sid : Nat) (q now : Int) (u : Nat) (db : DB),
        fbh_sum_key (fbh_add sid s1 q now u db) sid (norm_key s2) =
          fbh_sum_key db sid (norm_key s2) + q) ∧
      (∀ (sid : Nat) (q now : Int) (u : Nat) (db : DB),
        kl_total_available (kl_add_herb sid s1 q now u db) sid (norm_key s2) =
          kl_total_available db sid (norm_key s2) + q) := by
  intro s1 s2 h
  refine ⟨?_, ?_, ?_, ?_⟩
  · intro sid q db
    simp only [fbh_take, h]
  · intro sid q db
    simp only [kl_take_herb, h]
  · intro sid q now u db
    unfold fbh_sum_key fbh_rows fbh_add
    simp only []
    rw [List.filter_append, List.filter_append, List.map_append,
      List.sum_append]
    simp [h]
  · intro sid q now u db
    unfold kl_total_available kl_add_herb
    simp only []
    rw [List.filter_append, List.map_append, List.sum_append]
    simp [kl_match, h]

/-- Witness for C9: the spellings `"  BaSil "` and `"basil"` share the
normalized key, so a batch added under the first is counted by the
per-key total of the second. -/
theorem C9_normalization_consistency_witness :
    fbh_sum_key (fbh_add 1 "  BaSil " 4 100 9 ⟨[], [], []⟩) 1
        (norm_key "basil") =
      fbh_sum_key ⟨[], [], []⟩ 1 (norm_key "basil") + 4 :=
  (C9_normalization_consistency "  BaSil " "basil" (by decide)).2.2.1 1 4 100 9
    ⟨[], [], []⟩

/-- C10: a batch take or lot take touches only the rows whose storage id
and normalized item key both match its arguments; every row of another
key or another storage — and every row of the other two tables — is left
unchanged, in order and byte for byte. -/
theorem C10_take_frame :
    ∀ (sid : Nat) (d : String) (q : Int) (db : DB),
      (fbh_take sid d q db).2.lots = db.lots ∧
      (fbh_take sid d q db).2.pantry = db.pantry ∧
      (fbh_take sid d q db).2.fbh.filter
          (fun b => !fbh_match sid (norm_key d) b) =
        db.fbh.filter (fun b => !fbh_match sid (norm_key d) b) ∧
      (kl_take_herb sid d q db).2.fbh = db.fbh ∧
      (kl_take_herb sid d q db).2.pantry = db.pantry ∧
      (kl_take_herb sid d q db).2.lots.filter
          (fun l => !kl_match sid (norm_key d) l) =
        db.lots.filter (fun l => !kl_match sid (norm_key d) l) := by
  intro sid d q db
  refine ⟨rfl, rfl, ?_, rfl, rfl, ?_⟩
  · rw [fbh_take_eq]
    exact (fbh_take_go_spec sid (norm_key d) q db.fbh).2.2
  · obtain ⟨-, -, -, h4⟩ := kl_take_herb_spec sid d q db
    apply h4
    intro x hx
    simpa using hx

/-- C2: batch take is FIFO and never errors on shortage.  In general (for
a well-formed storage, requested qty > 0): the returned amount is
`min(requested, total stock of the key)`, and the batches of the key are
transformed exactly by the spec's oldest-first consumption
(`fifoConsumeBatches`), other rows untouched (C10).  Concretely: after
A(t1, qty 3) then B(t2, qty 5) with t1 < t2, `take(key, 6)` returns 6,
deletes A and leaves exactly B with qty 2 (so the remaining total is 2);
and `take(key, 10)` against 4 available returns 4 and leaves zero rows
for the key. -/
theorem C2_fbh_take_fifo :
    (∀ (sid : Nat) (d : String) (q : Int) (db : DB), 0 < q →
      (∀ b ∈ db.fbh, 0 < b.qty) →
      (fbh_take sid d q db).1 =
        min q (((db.fbh.filter (fbh_match sid (norm_key d))).map (·.qty)).sum) ∧
      (fbh_take sid d q db).2.fbh.filter (fbh_match sid (norm_key d)) =
        (fifoConsumeBatches q (db.fbh.filter (fbh_match sid (norm_key d)))).2) ∧
    (∀ t1 t2 : Int, t1 < t2 →
      fbh_take 1 "Maus" 6 ⟨[⟨1, "maus", "Maus", 3, t1, 9⟩,
          ⟨1, "maus", "Maus", 5, t2, 9⟩], [], []⟩ =
        (6, ⟨[⟨1, "maus", "Maus", 2, t2, 9⟩], [], []⟩) ∧
      fbh_sum_key (fbh_take 1 "Maus" 6 ⟨[⟨1, "maus", "Maus", 3, t1, 9⟩,
          ⟨1, "maus", "Maus", 5, t2, 9⟩], [], []⟩).2 1 "maus" = 2) ∧
    ((fbh_take 1 "Maus" 10 ⟨[⟨1, "maus", "Maus", 4, 0, 9⟩], [], []⟩).1 = 4 ∧
      (fbh_take 1 "Maus" 10
          ⟨[⟨1, "maus", "Maus", 4, 0, 9⟩], [], []⟩).2.fbh.filter
        (fbh_match 1 (norm_key "Maus")) = []) := by
  refine ⟨?_, ?_, by decide, by decide⟩
  · intro sid d q db hq hpos
    exact ⟨fbh_take_removed (by omega) hpos,
      (by rw [fbh_take_eq]
          exact (fbh_take_go_spec sid (norm_key d) q db.fbh).2.1)⟩
  · intro t1 t2 ht
    have hk : norm_key "Maus" = "maus" := by decide
    constructor
    · rw [fbh_take_eq]
      simp only [fbh_take_go, fbh_match, hk]
      norm_num
    · rw [fbh_take_eq]
      unfold fbh_sum_key fbh_rows
      simp only [fbh_take_go, fbh_match, hk]
      norm_num

/-- Witness for C2: the general clause at a two-batch storage, and the
parametric FIFO scenario at t1 = 0 < 1 = t2. -/
theorem C2_fbh_take_fifo_witness :
    ((fbh_take 1 "Maus" 6 ⟨[⟨1, "maus", "Maus", 3, 0, 9⟩,
        ⟨1, "maus", "Maus", 5, 1, 9⟩], [], []⟩).1 =
      min 6 ((((⟨[⟨1, "maus", "Maus", 3, 0, 9⟩,
        ⟨1, "maus", "Maus", 5, 1, 9⟩], [], []⟩ : DB)).fbh.filter
          (fbh_match 1 (norm_key "Maus"))).map (·.qty)).sum) ∧
    fbh_take 1 "Maus" 6 ⟨[⟨1, "maus", "Maus", 3, 0, 9⟩,
        ⟨1, "maus", "Maus", 5, 1, 9⟩], [], []⟩ =
      (6, ⟨[⟨1, "maus", "Maus", 2, 1, 9⟩], [], []⟩) :=
  ⟨(C2_fbh_take_fifo.1 1 "Maus" 6 ⟨[⟨1, "maus", "Maus", 3, 0, 9⟩,
      ⟨1, "maus", "Maus", 5, 1, 9⟩], [], []⟩ (by decide) (by decide)).1,
   (C2_fbh_take_fifo.2.1 0 1 (by decide)).1⟩

/-- C5: lot take drains Fresh lots of the key oldest-first and touches
Dried lots only with the demand left after the Fresh pass — so Dried rows
change only when every Fresh lot of the key has been exhausted — and the
returned amount is `min(requested, total available over both states)`,
which may be less than requested. -/
theorem C5_lot_take_fresh_first :
    ∀ (sid : Nat) (d : String) (q : Int) (db : DB), 0 < q →
      (∀ l ∈ db.lots, 0 < l.qty) →
      (kl_take_herb sid d q db).1 =
        min q (kl_total_available db sid (norm_key d)) ∧
      (kl_take_herb sid d q db).2.lots.filter
          (kl_match_state sid (norm_key d) LotState.frisch) =
        (fifoConsumeLots q (db.lots.filter
          (kl_match_state sid (norm_key d) LotState.frisch))).2 ∧
      (kl_take_herb sid d q db).2.lots.filter
          (kl_match_state sid (norm_key d) LotState.getrocknet) =
        (fifoConsumeLots (q - (fifoConsumeLots q (db.lots.filter
            (kl_match_state sid (norm_key d) LotState.frisch))).1)
          (db.lots.filter
            (kl_match_state sid (norm_key d) LotState.getrocknet))).2 ∧
      ((kl_take_herb sid d q db).2.lots.filter
          (kl_match_state sid (norm_key d) LotState.getrocknet) ≠
        db.lots.filter (kl_match_state sid (norm_key d) LotState.getrocknet) →
        (kl_take_herb sid d q db).2.lots.filter
          (kl_match_state sid (norm_key d) LotState.frisch) = []) := by
  intro sid d q db hq hpos
  obtain ⟨h1, h2, h3, -⟩ := kl_take_herb_spec sid d q db
  have hf : ∀ l ∈ db.lots.filter
      (kl_match_state sid (norm_key d) LotState.frisch), 0 < l.qty :=
    fun l hl => hpos l (List.mem_of_mem_filter hl)
  refine ⟨kl_take_herb_removed (by omega) hpos, h2, h3, ?_⟩
  intro hch
  have hmin := fifoConsumeLots_fst_min (q := q) (l := db.lots.filter
    (kl_match_state sid (norm_key d) LotState.frisch)) (by omega) hf
  by_cases hle : q ≤ ((db.lots.filter
      (kl_match_state sid (norm_key d) LotState.frisch)).map (·.qty)).sum
  · exfalso
    apply hch
    rw [h3, hmin, min_eq_left hle,
      fifoConsumeLots_nonpos (q - q) _ (by omega)]
  · rw [h2]
    exact fifoConsumeLots_drained hf (by omega)

/-- Witness for C5: a storage with one fresh lot (qty 2) and one dried lot
(qty 3) of the same key; a take of 4 returns `min 4 5 = 4`. -/
theorem C5_lot_take_fresh_first_witness :
    (kl_take_herb 1 "Basil" 4
        ⟨[], [⟨1, "basil", "Basil", 2, LotState.frisch, 0, 9⟩,
          ⟨1, "basil", "Basil", 3, LotState.getrocknet, 1, 9⟩], []⟩).1 =
      min 4 (kl_total_available
        ⟨[], [⟨1, "basil", "Basil", 2, LotState.frisch, 0, 9⟩,
          ⟨1, "basil", "Basil", 3, LotState.getrocknet, 1, 9⟩], []⟩ 1
        (norm_key "Basil")) :=
  (C5_lot_take_fresh_first 1 "Basil" 4
    ⟨[], [⟨1, "basil", "Basil", 2, LotState.frisch, 0, 9⟩,
      ⟨1, "basil", "Basil", 3, LotState.getrocknet, 1, 9⟩], []⟩
    (by decide) (by decide)).1

theorem craft_missing_mem_notAllowed {allowed : List String}
    {recipe : List (String × Int)} {menge : Int} {sid : Nat} {db : DB}
    {e : String × Int} (he : e ∈ recipe)
    (hna : ¬ is_allowed e.1 allowed = true) :
    CraftFail.notAllowed e.1 ∈ craft_missing allowed recipe menge sid db := by
  unfold craft_missing
  apply List.mem_filterMap.mpr
  exact ⟨e, he, by simp [hna]⟩

theorem craft_missing_mem_short {allowed : List String}
    {recipe : List (String × Int)} {menge : Int} {sid : Nat} {db : DB}
    {e : String × Int} (he : e ∈ recipe)
    (ha : is_allowed e.1 allowed = true)
    (hs : kl_total_available db sid (norm_key e.1) < e.2 * menge) :
    CraftFail.short e.1
        (e.2 * menge - kl_total_available db sid (norm_key e.1))
        (e.2 * menge) (kl_total_available db sid (norm_key e.1)) ∈
      craft_missing allowed recipe menge sid db := by
  unfold craft_missing
  apply List.mem_filterMap.mpr
  exact ⟨e, he, by simp [ha, hs]⟩

theorem craft_missing_ne_nil {allowed : List String}
    {recipe : List (String × Int)} {menge : Int} {sid : Nat} {db : DB}
    (h : ∃ e ∈ recipe, ¬ is_allowed e.1 allowed = true ∨
      kl_total_available db sid (norm_key e.1) < e.2 * menge) :
    craft_missing allowed recipe menge sid db ≠ [] := by
  obtain ⟨e, he, hcase⟩ := h
  rcases hcase with hna | hs
  · exact List.ne_nil_of_mem (craft_missing_mem_notAllowed he hna)
  · by_cases ha : is_allowed e.1 allowed = true
    · exact List.ne_nil_of_mem (craft_missing_mem_short he ha hs)
    · exact List.ne_nil_of_mem (craft_missing_mem_notAllowed he ha)

/-- C1: when any ingredient of a recipe is disallowed or short
(total available, fresh plus dried, below `perUnitQty × multiplier`),
`kl_herstellen` aborts with the itemized failure list — every disallowed
ingredient and every shortfall (reported as `required − available`)
appears in it — and mutates no quantity: every lot row keeps its
storage, key, display, quantity, timestamp and position (lazy drying may
flip a state label, never a quantity), and the pantry and batch tables
are untouched. -/
theorem C1_craft_failure_atomic :
    ∀ (allowed : List String) (recipe : List (String × Int)) (rezept : String)
      (menge : Int) (sid : Nat) (settings : Settings) (now : Int) (u : Nat)
      (db : DB),
      0 < menge →
      (∃ e ∈ recipe, ¬ is_allowed e.1 allowed = true ∨
        kl_total_available db sid (norm_key e.1) < e.2 * menge) →
      (∃ ms : List CraftFail,
        (kl_herstellen allowed recipe rezept menge sid settings now u db).1 =
          CraftOutcome.fail ms ∧ ms ≠ [] ∧
        (∀ e ∈ recipe, ¬ is_allowed e.1 allowed = true →
          CraftFail.notAllowed e.1 ∈ ms) ∧
        (∀ e ∈ recipe, is_allowed e.1 allowed = true →
          kl_total_available db sid (norm_key e.1) < e.2 * menge →
          CraftFail.short e.1
            (e.2 * menge - kl_total_available db sid (norm_key e.1))
            (e.2 * menge) (kl_total_available db sid (norm_key e.1)) ∈ ms)) ∧
      (kl_herstellen allowed recipe rezept menge sid settings now u db).2.lots.map
          (fun l => (l.storage_id, l.herb_key, l.herb_display, l.qty,
            l.added_at, l.added_by)) =
        db.lots.map (fun l => (l.storage_id, l.herb_key, l.herb_display,
          l.qty, l.added_at, l.added_by)) ∧
      (kl_herstellen allowed recipe rezept menge sid settings now u db).2.pantry =
        db.pantry ∧
      (kl_herstellen allowed recipe rezept menge sid settings now u db).2.fbh =
        db.fbh := by
  intro allowed recipe rezept menge sid settings now u db hm hfail
  have htot : ∀ k : String,
      kl_total_available (kl_apply_drying_if_enabled settings sid now db) sid k =
        kl_total_available db sid k :=
    fun k => kl_apply_drying_total settings sid now db sid k
  have hfail2 : ∃ e ∈ recipe, ¬ is_allowed e.1 allowed = true ∨
      kl_total_available (kl_apply_drying_if_enabled settings sid now db) sid
        (norm_key e.1) < e.2 * menge := by
    obtain ⟨e, he, hc⟩ := hfail
    exact ⟨e, he, by rwa [htot (norm_key e.1)]⟩
  have hne := craft_missing_ne_nil hfail2
  have hcond : ¬ ((craft_missing allowed recipe menge sid
      (kl_apply_drying_if_enabled settings sid now db)).isEmpty = true) := by
    simpa [List.isEmpty_iff] using hne
  have hres : kl_herstellen allowed recipe rezept menge sid settings now u db =
      (CraftOutcome.fail (craft_missing allowed recipe menge sid
        (kl_apply_drying_if_enabled settings sid now db)),
       kl_apply_drying_if_enabled settings sid now db) := by
    unfold kl_herstellen
    rw [if_neg hcond]
  refine ⟨?_, ?_, ?_, ?_⟩
  · refine ⟨craft_missing allowed recipe menge sid
      (kl_apply_drying_if_enabled settings sid now db), ?_, hne, ?_, ?_⟩
    · rw [hres]
    · intro e he hna
      exact craft_missing_mem_notAllowed he hna
    · intro e he ha hs
      have hs1 : kl_total_available (kl_apply_drying_if_enabled settings sid
          now db) sid (norm_key e.1) < e.2 * menge := by
        rwa [htot (norm_key e.1)]
      have := craft_missing_mem_short he ha hs1
      rwa [htot (norm_key e.1)] at this
  · rw [hres]
    exact kl_apply_drying_proj settings sid now db
  · rw [hres]
    exact kl_apply_drying_pantry settings sid now db
  · rw [hres]
    exact kl_apply_drying_fbh settings sid now db

/-- Witness for C1: the spec's own example — recipe requiring 6 Basil and
3 Thyme against 5 Basil and 10 Thyme: the craft fails reporting Basil
short by 1, and every lot keeps its quantity. -/
theorem C1_craft_failure_atomic_witness :
    (∃ ms : List CraftFail,
      (kl_herstellen ["Basil", "Thyme"] [("Basil", 2), ("Thyme", 1)] "Mix" 3 1
          ⟨"Blattfrische", false, false⟩ 100 9
          ⟨[], [⟨1, "basil", "Basil", 5, LotState.frisch, 0, 9⟩,
            ⟨1, "thyme", "Thyme", 10, LotState.frisch, 0, 9⟩], []⟩).1 =
        CraftOutcome.fail ms ∧ ms ≠ [] ∧
      (∀ e ∈ ([("Basil", 2), ("Thyme", 1)] : List (String × Int)),
        ¬ is_allowed e.1 ["Basil", "Thyme"] = true →
        CraftFail.notAllowed e.1 ∈ ms) ∧
      (∀ e ∈ ([("Basil", 2), ("Thyme", 1)] : List (String × Int)),
        is_allowed e.1 ["Basil", "Thyme"] = true →
        kl_total_available ⟨[], [⟨1, "basil", "Basil", 5, LotState.frisch, 0, 9⟩,
            ⟨1, "thyme", "Thyme", 10, LotState.frisch, 0, 9⟩], []⟩ 1
          (norm_key e.1) < e.2 * 3 →
        CraftFail.short e.1
          (e.2 * 3 - kl_total_available ⟨[],
            [⟨1, "basil", "Basil", 5, LotState.frisch, 0, 9⟩,
             ⟨1, "thyme", "Thyme", 10, LotState.frisch, 0, 9⟩], []⟩ 1
            (norm_key e.1))
          (e.2 * 3) (kl_total_available ⟨[],
            [⟨1, "basil", "Basil", 5, LotState.frisch, 0, 9⟩,
             ⟨1, "thyme", "Thyme", 10, LotState.frisch, 0, 9⟩], []⟩ 1
            (norm_key e.1)) ∈ ms)) ∧
    (kl_herstellen ["Basil", "Thyme"] [("Basil", 2), ("Thyme", 1)] "Mix" 3 1
        ⟨"Blattfrische", false, false⟩ 100 9
        ⟨[], [⟨1, "basil", "Basil", 5, LotState.frisch, 0, 9⟩,
          ⟨1, "thyme", "Thyme", 10, LotState.frisch, 0, 9⟩], []⟩).2.lots.map
        (fun l => (l.storage_id, l.herb_key, l.herb_display, l.qty,
          l.added_at, l.added_by)) =
      ([⟨1, "basil", "Basil", 5, LotState.frisch, 0, 9⟩,
        ⟨1, "thyme", "Thyme", 10, LotState.frisch, 0, 9⟩] : List LotRow).map
        (fun l => (l.storage_id, l.herb_key, l.herb_display, l.qty,
          l.added_at, l.added_by)) :=
  ⟨(C1_craft_failure_atomic ["Basil", "Thyme"] [("Basil", 2), ("Thyme", 1)]
      "Mix" 3 1 ⟨"Blattfrische", false, false⟩ 100 9
      ⟨[], [⟨1, "basil", "Basil", 5, LotState.frisch, 0, 9⟩,
        ⟨1, "thyme", "Thyme", 10, LotState.frisch, 0, 9⟩], []⟩
      (by decide) (by decide)).1,
   (C1_craft_failure_atomic ["Basil", "Thyme"] [("Basil", 2), ("Thyme", 1)]
      "Mix" 3 1 ⟨"Blattfrische", false, false⟩ 100 9
      ⟨[], [⟨1, "basil", "Basil", 5, LotState.frisch, 0, 9⟩,
        ⟨1, "thyme", "Thyme", 10, LotState.frisch, 0, 9⟩], []⟩
      (by decide) (by decide)).2.1⟩

theorem craft_consume_ok (allowed : List String) (menge : Int) (sid : Nat) :
    ∀ (recipe : List (String × Int)) (db : DB),
      (∀ l ∈ db.lots, 0 < l.qty) →
      (recipe.map (fun e => norm_key e.1)).Nodup →
      (∀ e ∈ recipe, is_allowed e.1 allowed = true ∧ 0 ≤ e.2 * menge ∧
        e.2 * menge ≤ kl_total_available db sid (norm_key e.1)) →
      (craft_consume allowed menge sid recipe db).1 = true ∧
      (∀ l ∈ (craft_consume allowed menge sid recipe db).2.lots, 0 < l.qty) ∧
      (craft_consume allowed menge sid recipe db).2.fbh = db.fbh ∧
      (craft_consume allowed menge sid recipe db).2.pantry = db.pantry ∧
      (∀ e ∈ recipe,
        kl_total_available (craft_consume allowed menge sid recipe db).2 sid
            (norm_key e.1) =
          kl_total_available db sid (norm_key e.1) - e.2 * menge) ∧
      (∀ (sid2 : Nat) (k2 : String),
        (∀ e ∈ recipe, ¬ (sid2 = sid ∧ k2 = norm_key e.1)) →
        kl_total_available (craft_consume allowed menge sid recipe db).2 sid2 k2 =
          kl_total_available db sid2 k2) := by
  intro recipe
  induction recipe with
  | nil =>
    intro db hWF hnd hall
    refine ⟨rfl, hWF, rfl, rfl, by simp, fun sid2 k2 h => rfl⟩
  | cons e rest ih =>
    intro db hWF hnd hall
    obtain ⟨ha, hq0, hqle⟩ := hall e (by simp)
    have hck : norm_key (canonical e.1 allowed) = norm_key e.1 :=
      norm_key_canonical ha
    have hrm : (kl_take_herb sid (canonical e.1 allowed) (e.2 * menge) db).1 =
        e.2 * menge := by
      rw [kl_take_herb_removed hq0 hWF, hck]
      omega
    have hstep : craft_consume allowed menge sid (e :: rest) db =
        craft_consume allowed menge sid rest
          (kl_take_herb sid (canonical e.1 allowed) (e.2 * menge) db).2 := by
      simp only [craft_consume]
      rw [if_pos hrm]
    set db2 := (kl_take_herb sid (canonical e.1 allowed) (e.2 * menge) db).2
      with hdb2
    have hWF2 : ∀ l ∈ db2.lots, 0 < l.qty := kl_take_herb_pos hWF
    have hnd2 : (rest.map (fun x => norm_key x.1)).Nodup :=
      (List.nodup_cons.mp hnd).2
    have hkey_notin : ∀ x ∈ rest, ¬ norm_key x.1 = norm_key e.1 := by
      intro x hx hxe
      exact (List.nodup_cons.mp hnd).1
        (List.mem_map.mpr ⟨x, hx, hxe⟩)
    have htot_other : ∀ x ∈ rest,
        kl_total_available db2 sid (norm_key x.1) =
          kl_total_available db sid (norm_key x.1) := by
      intro x hx
      apply kl_take_herb_total_other
      rintro ⟨-, hk⟩
      rw [hck] at hk
      exact hkey_notin x hx hk
    have hall2 : ∀ x ∈ rest, is_allowed x.1 allowed = true ∧ 0 ≤ x.2 * menge ∧
        x.2 * menge ≤ kl_total_available db2 sid (norm_key x.1) := by
      intro x hx
      obtain ⟨h1, h2, h3⟩ := hall x (by simp [hx])
      exact ⟨h1, h2, by rw [htot_other x hx]; exact h3⟩
    obtain ⟨i1, i2, i3, i4, i5, i6⟩ := ih db2 hWF2 hnd2 hall2
    have hhead : kl_total_available db2 sid (norm_key e.1) =
        kl_total_available db sid (norm_key e.1) - e.2 * menge := by
      have := kl_take_herb_total_after sid (canonical e.1 allowed)
        (e.2 * menge) db
      rw [hck, hrm] at this
      exact this
    rw [hstep]
    refine ⟨i1, i2, by rw [i3, hdb2, kl_take_herb_fbh],
      by rw [i4, hdb2, kl_take_herb_pantry], ?_, ?_⟩
    · intro x hx
      rcases List.mem_cons.mp hx with rfl | hx
      · rw [i6 sid (norm_key x.1)
          (fun x2 hx2 => by
            rintro ⟨-, hk⟩
            exact hkey_notin x2 hx2 hk.symm), hhead]
      · rw [i5 x hx, htot_other x hx]
    · intro sid2 k2 hno
      rw [i6 sid2 k2 (fun x hx => hno x (by simp [hx]))]
      apply kl_take_herb_total_other
      rintro ⟨h1, h2⟩
      rw [hck] at h2
      exact hno e (by simp) ⟨h1, h2⟩

/-- Counterexample to C8 as stated: the recipe `{Basil: 2, basil: 1}` has
two distinct ingredient names with the same normalized key.  Against a
storage holding 2 Basil with multiplier 1, every ingredient is allowed
and individually satisfies `available (= 2) ≥ perUnitQty × multiplier`,
yet the craft does not produce: validation passes, the first take drains
the pool, the second take comes up short, and `kl_herstellen` aborts with
the fatal consistency error after consuming 2 Basil and without touching
the pantry. -/
theorem C8_counterexample_dup_keys :
    (∀ e ∈ ([("Basil", 2), ("basil", 1)] : List (String × Int)),
      is_allowed e.1 ["Basil"] = true ∧
      e.2 * 1 ≤ kl_total_available
        ⟨[], [⟨1, "basil", "Basil", 2, LotState.frisch, 0, 9⟩], []⟩ 1
        (norm_key e.1)) ∧
    (kl_herstellen ["Basil"] [("Basil", 2), ("basil", 1)] "Mix" 1 1
        ⟨"Blattfrische", false, false⟩ 100 9
        ⟨[], [⟨1, "basil", "Basil", 2, LotState.frisch, 0, 9⟩], []⟩).1 =
      CraftOutcome.fatal ∧
    (kl_herstellen ["Basil"] [("Basil", 2), ("basil", 1)] "Mix" 1 1
        ⟨"Blattfrische", false, false⟩ 100 9
        ⟨[], [⟨1, "basil", "Basil", 2, LotState.frisch, 0, 9⟩], []⟩).2.pantry =
      [] ∧
    kl_total_available
        (kl_herstellen ["Basil"] [("Basil", 2), ("basil", 1)] "Mix" 1 1
          ⟨"Blattfrische", false, false⟩ 100 9
          ⟨[], [⟨1, "basil", "Basil", 2, LotState.frisch, 0, 9⟩], []⟩).2 1
        "basil" = 0 := by
  decide

/-- C8 (amended): when every ingredient of a recipe is allowed, per-unit
quantities are non-negative, total available covers
`perUnitQty × multiplier` for each, and — the amendment forced by
`C8_counterexample_dup_keys` — the ingredient names have pairwise
distinct normalized keys, crafting succeeds: exactly
`perUnitQty × multiplier` of each ingredient leaves the lot ledger, the
pantry entry named after the recipe grows by exactly the multiplier
(created if absent), and the batch table is untouched. -/
theorem C8_craft_success (allowed : List String) (recipe : List (String × Int))
    (rezept : String) (menge : Int) (sid : Nat) (settings : Settings)
    (now : Int) (u : Nat) (db : DB)
    (hmenge : 0 < menge)
    (hWF : ∀ l ∈ db.lots, 0 < l.qty)
    (hpnd : (db.pantry.map (fun p => (p.storage_id, p.item_key))).Nodup)
    (hnd : (recipe.map (fun e => norm_key e.1)).Nodup)
    (hall : ∀ e ∈ recipe, is_allowed e.1 allowed = true ∧ 0 ≤ e.2 ∧
      e.2 * menge ≤ kl_total_available db sid (norm_key e.1)) :
    (kl_herstellen allowed recipe rezept menge sid settings now u db).1 =
      CraftOutcome.ok ∧
    (∀ e ∈ recipe,
      kl_total_available
          (kl_herstellen allowed recipe rezept menge sid settings now u db).2
          sid (norm_key e.1) =
        kl_total_available db sid (norm_key e.1) - e.2 * menge) ∧
    pantry_sum (kl_herstellen allowed recipe rezept menge sid settings now u db).2
        sid (norm_key rezept) =
      pantry_sum db sid (norm_key rezept) + menge ∧
    (kl_herstellen allowed recipe rezept menge sid settings now u db).2.fbh =
      db.fbh := by
  have htot : ∀ k : String,
      kl_total_available (kl_apply_drying_if_enabled settings sid now db) sid k =
        kl_total_available db sid k :=
    fun k => kl_apply_drying_total settings sid now db sid k
  have hWF1 : ∀ l ∈ (kl_apply_drying_if_enabled settings sid now db).lots,
      0 < l.qty := kl_apply_drying_pos hWF
  have hall1 : ∀ e ∈ recipe, is_allowed e.1 allowed = true ∧
      0 ≤ e.2 * menge ∧
      e.2 * menge ≤ kl_total_available
        (kl_apply_drying_if_enabled settings sid now db) sid (norm_key e.1) := by
    intro e he
    obtain ⟨h1, h2, h3⟩ := hall e he
    exact ⟨h1, mul_nonneg h2 (by omega), by rw [htot]; exact h3⟩
  have hmiss : craft_missing allowed recipe menge sid
      (kl_apply_drying_if_enabled settings sid now db) = [] := by
    unfold craft_missing
    rw [List.filterMap_eq_nil_iff]
    intro e he
    obtain ⟨h1, h2, h3⟩ := hall1 e he
    have hnl : ¬ (kl_total_available
        (kl_apply_drying_if_enabled settings sid now db) sid (norm_key e.1) <
        e.2 * menge) := by omega
    simp [h1, hnl]
  obtain ⟨c1, c2, c3, c4, c5, c6⟩ := craft_consume_ok allowed menge sid recipe
    (kl_apply_drying_if_enabled settings sid now db) hWF1 hnd hall1
  have hres : kl_herstellen allowed recipe rezept menge sid settings now u db =
      (CraftOutcome.ok, pantry_add sid rezept menge now u
        (craft_consume allowed menge sid recipe
          (kl_apply_drying_if_enabled settings sid now db)).2) := by
    unfold kl_herstellen
    simp only [hmiss, List.isEmpty_nil, if_true]
    rw [if_pos c1]
  have hp4 : (craft_consume allowed menge sid recipe
      (kl_apply_drying_if_enabled settings sid now db)).2.pantry = db.pantry := by
    rw [c4, kl_apply_drying_pantry]
  refine ⟨by rw [hres], ?_, ?_, ?_⟩
  · intro e he
    rw [hres]
    show kl_total_available (pantry_add sid rezept menge now u _) sid
        (norm_key e.1) = _
    unfold kl_total_available
    rw [pantry_add_lots]
    have := c5 e he
    unfold kl_total_available at this
    rw [this]
    rw [show ((List.filter (kl_match sid (norm_key e.1))
      (kl_apply_drying_if_enabled settings sid now db).lots).map (·.qty)).sum =
      kl_total_available (kl_apply_drying_if_enabled settings sid now db) sid
        (norm_key e.1) from rfl, htot]
    rfl
  · rw [hres]
    show pantry_sum (pantry_add sid rezept menge now u _) sid (norm_key rezept) = _
    rw [pantry_add_sum_same sid rezept menge now u _ (by rw [hp4]; exact hpnd)]
    unfold pantry_sum
    rw [hp4]
  · rw [hres]
    show (pantry_add sid rezept menge now u _).fbh = db.fbh
    rw [pantry_add_fbh, c3, kl_apply_drying_fbh]

/-- Witness for the amended C8: the two-ingredient recipe
`{Basil: 2, Thyme: 1}` with multiplier 3 against 6 Basil and 10 Thyme
succeeds and leaves 0 Basil. -/
theorem C8_craft_success_witness :
    (kl_herstellen ["Basil", "Thyme"] [("Basil", 2), ("Thyme", 1)] "Mix" 3 1
        ⟨"Blattfrische", false, false⟩ 100 9
        ⟨[], [⟨1, "basil", "Basil", 6, LotState.frisch, 0, 9⟩,
          ⟨1, "thyme", "Thyme", 10, LotState.frisch, 0, 9⟩], []⟩).1 =
      CraftOutcome.ok ∧
    pantry_sum (kl_herstellen ["Basil", "Thyme"] [("Basil", 2), ("Thyme", 1)]
        "Mix" 3 1 ⟨"Blattfrische", false, false⟩ 100 9
        ⟨[], [⟨1, "basil", "Basil", 6, LotState.frisch, 0, 9⟩,
          ⟨1, "thyme", "Thyme", 10, LotState.frisch, 0, 9⟩], []⟩).2 1
        (norm_key "Mix") =
      pantry_sum ⟨[], [⟨1, "basil", "Basil", 6, LotState.frisch, 0, 9⟩,
        ⟨1, "thyme", "Thyme", 10, LotState.frisch, 0, 9⟩], []⟩ 1
        (norm_key "Mix") + 3 :=
  ⟨(C8_craft_success ["Basil", "Thyme"] [("Basil", 2), ("Thyme", 1)] "Mix" 3 1
      ⟨"Blattfrische", false, false⟩ 100 9
      ⟨[], [⟨1, "basil", "Basil", 6, LotState.frisch, 0, 9⟩,
        ⟨1, "thyme", "Thyme", 10, LotState.frisch, 0, 9⟩], []⟩
      (by decide) (by decide) (by decide) (by decide) (by decide)).1,
   (C8_craft_success ["Basil", "Thyme"] [("Basil", 2), ("Thyme", 1)] "Mix" 3 1
      ⟨"Blattfrische", false, false⟩ 100 9
      ⟨[], [⟨1, "basil", "Basil", 6, LotState.frisch, 0, 9⟩,
        ⟨1, "thyme", "Thyme", 10, LotState.frisch, 0, 9⟩], []⟩
      (by decide) (by decide) (by decide) (by decide) (by decide)).2.2.1⟩

/-- C7: after any sequence of add/take/produce/consume operations (adds
and produces with positive quantity) starting from a well-formed
database, every stored batch, lot and pantry row still has a positive
quantity (a drained row is deleted, never kept at ≤ 0), the pantry still
respects its primary key, and the grouped total report contains, for
every key with live rows, exactly the sum of that key's rows (no group
is excluded, since all sums are positive). -/
theorem C7_positivity_invariant :
    ∀ (ops : List Op) (db : DB), WFdb db → (∀ o ∈ ops, o.valid) →
      WFdb (runOps ops db) ∧
      (∀ (sid : Nat) (k : String), k ∈ fbh_keys (runOps ops db) sid →
        (k, fbh_sum_key (runOps ops db) sid k) ∈
          fbh_total (runOps ops db) sid) := by
  intro ops db hWF hv
  have h := runOps_WF hWF hv
  exact ⟨h, fun sid k hk => mem_fbh_total h.1 hk⟩

/-- Witness for C7: adds followed by takes and pantry traffic starting
from the empty database keep every row positive and report exact sums. -/
theorem C7_positivity_invariant_witness :
    WFdb (runOps [Op.fbhAdd 1 "Maus" 3 5 9, Op.fbhAdd 1 "Maus" 5 6 9,
        Op.fbhTake 1 "Maus" 6, Op.klAdd 1 "Basil" 4 7 9,
        Op.klTake 1 "Basil" 2, Op.produce 1 "Mix" 2 8 9,
        Op.consume 1 "Mix" 1] ⟨[], [], []⟩) ∧
    ("maus" ∈ fbh_keys (runOps [Op.fbhAdd 1 "Maus" 3 5 9,
        Op.fbhAdd 1 "Maus" 5 6 9, Op.fbhTake 1 "Maus" 6,
        Op.klAdd 1 "Basil" 4 7 9, Op.klTake 1 "Basil" 2,
        Op.produce 1 "Mix" 2 8 9, Op.consume 1 "Mix" 1] ⟨[], [], []⟩) 1 →
      ("maus", fbh_sum_key (runOps [Op.fbhAdd 1 "Maus" 3 5 9,
        Op.fbhAdd 1 "Maus" 5 6 9, Op.fbhTake 1 "Maus" 6,
        Op.klAdd 1 "Basil" 4 7 9, Op.klTake 1 "Basil" 2,
        Op.produce 1 "Mix" 2 8 9, Op.consume 1 "Mix" 1] ⟨[], [], []⟩) 1
        "maus") ∈
      fbh_total (runOps [Op.fbhAdd 1 "Maus" 3 5 9, Op.fbhAdd 1 "Maus" 5 6 9,
        Op.fbhTake 1 "Maus" 6, Op.klAdd 1 "Basil" 4 7 9,
        Op.klTake 1 "Basil" 2, Op.produce 1 "Mix" 2 8 9,
        Op.consume 1 "Mix" 1] ⟨[], [], []⟩) 1) := by
  have h := C7_positivity_invariant [Op.fbhAdd 1 "Maus" 3 5 9,
    Op.fbhAdd 1 "Maus" 5 6 9, Op.fbhTake 1 "Maus" 6,
    Op.klAdd 1 "Basil" 4 7 9, Op.klTake 1 "Basil" 2,
    Op.produce 1 "Mix" 2 8 9, Op.consume 1 "Mix" 1] ⟨[], [], []⟩
    (by refine ⟨?_, ?_, ?_, ?_⟩ <;> simp)
    (by
      intro o ho
      simp only [List.mem_cons, List.not_mem_nil, or_false] at ho
      rcases ho with rfl | rfl | rfl | rfl | rfl | rfl | rfl
      · exact (by decide : (0 : Int) < 3)
      · exact (by decide : (0 : Int) < 5)
      · trivial
      · exact (by decide : (0 : Int) < 4)
      · trivial
      · exact (by decide : (0 : Int) < 2)
      · trivial)
  exact ⟨h.1, h.2 1 "maus"⟩
